import Mathlib

/-!
# Verification of the Ledger CLOB matching engine

Shallow embedding of the order-matching and settlement engine of the
Ledger repository: the PL/pgSQL functions `place_order` and `cancel_order`
from `src/supabase/migrations/20260225170000_add_clob_features.sql`,
together with the table rows they read and write
(`profiles`, `vault_holdings`, `orders`, `trades`, `cards`, `prices`,
`price_history` from `src/supabase/schema.sql`) and the
`log_price_history` trigger on `prices`.

Conventions of the embedding:
* UUID columns become `Nat` ids; `DECIMAL(14,2)` money and `INTEGER`
  quantities become `Int` (all source arithmetic is exact addition,
  subtraction and multiplication);
  `TIMESTAMPTZ` becomes a logical `Nat` clock (`DB.now`), bumped once
  per order insertion so `created_at` reflects insertion order.
* Tables are lists of rows; `UPDATE ... WHERE id = k` is a map that
  rewrites every row whose key equals `k`; `SELECT ... WHERE id = k`
  is `List.find?`.
* `RAISE EXCEPTION` aborts the whole transaction, so the embedding
  returns `Except (String × DB) (DB × α)`: the error case carries the
  state at the moment of the raise (proving it equals the input state
  captures "raised before any mutation").
* CHECK constraints of the schema are not woven into the writes; they
  are separate predicates (e.g. `ordersQuantityCheckEffective` for the
  repository's current orders-quantity constraint, and
  `ordersQuantityCheckSuperseded` for the original `schema.sql` form it
  replaced) checked against the states the code produces, exactly so
  that a write that violates a constraint can be exhibited.
* PL/pgSQL three-valued logic: comparing a `NULL` (a `SELECT ... INTO`
  that found no row) with `!=`/`<` yields `NULL`, and `IF NULL THEN`
  does not take the branch.  The embedding follows this: when a lookup
  returns `none`, guards built from such comparisons are not taken.
-/

namespace Ledger

/-- Side of an order: the `type` column, CHECK (type IN ('buy','sell')). -/
inductive OrderType where
  | buy
  | sell
deriving DecidableEq, Repr

/-- Order status column, CHECK (status IN ('open','filled','cancelled')).
`open` is a reserved word in Lean, hence `open_`. -/
inductive OrderStatus where
  | open_
  | filled
  | cancelled
deriving DecidableEq, Repr

/-- Holding status column of `vault_holdings` (CHECK over the seven values). -/
inductive HoldingStatus where
  | pending_authentication
  | shipped
  | received
  | authenticating
  | tradable
  | withdrawn
  | listed
deriving DecidableEq, Repr

/-- A row of `profiles` (the columns the engine touches):
`cash_balance` is the available cash, `locked_balance` the escrowed cash. -/
structure Profile where
  id : Nat
  cash_balance : Int
  locked_balance : Int
deriving DecidableEq, Repr

/-- A row of `vault_holdings` (the columns the engine touches). -/
structure Holding where
  id : Nat
  user_id : Nat
  symbol : String
  status : HoldingStatus
  acquisition_price : Int
  listing_price : Option Int
deriving DecidableEq, Repr

/-- A row of `orders`. -/
structure Order where
  id : Nat
  user_id : Nat
  symbol : String
  type : OrderType
  price : Int
  quantity : Int
  status : OrderStatus
  holding_id : Option Nat
  created_at : Nat
deriving DecidableEq, Repr

/-- A row of `trades` (immutable trade record). -/
structure Trade where
  holding_id : Option Nat
  symbol : String
  buyer_id : Nat
  seller_id : Nat
  price : Int
  executed_at : Nat
deriving DecidableEq, Repr

/-- A row of `cards`, reduced to the columns `place_order` reads. -/
structure Card where
  id : Nat
  symbol : String
deriving DecidableEq, Repr

/-- A row of `prices` (cached last price and volume per card). -/
structure PriceRow where
  card_id : Nat
  price : Int
  volume_24h : Int
deriving DecidableEq, Repr

/-- A row of `price_history` (one tick). -/
structure Tick where
  card_id : Nat
  price : Int
  recorded_at : Nat
deriving DecidableEq, Repr

/-- The database state visible to the matching engine. -/
structure DB where
  profiles : List Profile
  holdings : List Holding
  orders : List Order
  trades : List Trade
  cards : List Card
  prices : List PriceRow
  price_history : List Tick
  next_id : Nat
  now : Nat
deriving DecidableEq, Repr

/-- `UPDATE t SET ... WHERE key = k`: rewrite every row whose key is `k`. -/
def updateRow (key : α → Nat) (k : Nat) (f : α → α) (l : List α) : List α :=
  l.map fun x => if key x = k then f x else x

/-- `SELECT * FROM t WHERE key = k` (at most one row under a PRIMARY KEY). -/
def findRow (key : α → Nat) (k : Nat) (l : List α) : Option α :=
  l.find? fun x => decide (key x = k)

/-- The original `schema.sql` CHECK `(quantity > 0)` on the `orders` table,
as a predicate on table contents.  This form is superseded: the "Fix Order
Quantity Constraint" migration drops `orders_quantity_check` and re-adds it
as `CHECK (quantity >= 0)` so that orders can be marked `filled` with
quantity 0.  It is kept only to state the superseded wording. -/
def ordersQuantityCheckSuperseded (l : List Order) : Prop :=
  ∀ o ∈ l, 0 < o.quantity

instance : DecidablePred ordersQuantityCheckSuperseded := fun l =>
  inferInstanceAs (Decidable (∀ o ∈ l, 0 < o.quantity))

/-- The repository's effective CHECK on `orders.quantity`: the "Fix Order
Quantity Constraint" migration (`ALTER TABLE public.orders ADD CONSTRAINT
orders_quantity_check CHECK (quantity >= 0)`) after dropping the original
`quantity > 0` form. -/
def ordersQuantityCheckEffective (l : List Order) : Prop :=
  ∀ o ∈ l, 0 ≤ o.quantity

instance : DecidablePred ordersQuantityCheckEffective := fun l =>
  inferInstanceAs (Decidable (∀ o ∈ l, 0 ≤ o.quantity))

/-- `INSERT INTO trades ...` with `executed_at = NOW()`. -/
def insertTrade (db : DB) (hid : Option Nat) (sym : String)
    (buyer seller : Nat) (tp : Int) : DB :=
  { db with trades := db.trades ++
      [{ holding_id := hid, symbol := sym, buyer_id := buyer,
         seller_id := seller, price := tp, executed_at := db.now }] }

/-- SET clause on `prices`: `price = tp, volume_24h = volume_24h + 1`. -/
def tickPrice (tp : Int) (r : PriceRow) : PriceRow :=
  { r with price := tp, volume_24h := r.volume_24h + 1 }

/-- The `prices` table after
`UPDATE prices SET price = tp, volume_24h = volume_24h + 1
 WHERE card_id = (SELECT id FROM cards WHERE symbol = sym)`.
When no card has the symbol the subquery is NULL and no row is updated. -/
def pricesAfterTick (cards : List Card) (prices : List PriceRow)
    (sym : String) (tp : Int) : List PriceRow :=
  match cards.find? (fun c => decide (c.symbol = sym)) with
  | none => prices
  | some c => updateRow PriceRow.card_id c.id (tickPrice tp) prices

/-- The `price_history` rows inserted by the `trg_log_price_history`
AFTER UPDATE trigger (`log_price_history`) for that same UPDATE: one row
per updated prices row whose `OLD.price IS DISTINCT FROM NEW.price`. -/
def historyTicks (cards : List Card) (prices : List PriceRow)
    (sym : String) (tp : Int) (t0 : Nat) : List Tick :=
  match cards.find? (fun c => decide (c.symbol = sym)) with
  | none => []
  | some c =>
    prices.filterMap fun r =>
      if r.card_id = c.id ∧ r.price ≠ tp then
        some { card_id := r.card_id, price := tp, recorded_at := t0 }
      else none

/-- The prices UPDATE of `place_order`'s trade block together with its
history trigger. -/
def updatePricesAndLog (db : DB) (sym : String) (tp : Int) : DB :=
  { db with
    prices := pricesAfterTick db.cards db.prices sym tp,
    price_history := db.price_history ++ historyTicks db.cards db.prices sym tp db.now }

/-- SET clause of the buy branch's fund locking:
`cash_balance = cash_balance - cost, locked_balance = locked_balance + cost`. -/
def lockFunds (cost : Int) (p : Profile) : Profile :=
  { p with cash_balance := p.cash_balance - cost,
           locked_balance := p.locked_balance + cost }

/-- SET clause of the taker-buyer settlement:
`locked_balance = locked_balance - p_price,
 cash_balance = cash_balance + (p_price - v_trade_price)`. -/
def refundTakerBuy (p_price tp : Int) (p : Profile) : Profile :=
  { p with locked_balance := p.locked_balance - p_price,
           cash_balance := p.cash_balance + (p_price - tp) }

/-- SET clause crediting cash: `cash_balance = cash_balance + tp`. -/
def creditCash (tp : Int) (p : Profile) : Profile :=
  { p with cash_balance := p.cash_balance + tp }

/-- SET clause of the resting-bid settlement:
`locked_balance = locked_balance - v_trade_price`. -/
def debitLocked (tp : Int) (p : Profile) : Profile :=
  { p with locked_balance := p.locked_balance - tp }

/-- SET clause of the buy-order cancellation refund. -/
def refundCancelBuy (amount : Int) (p : Profile) : Profile :=
  { p with locked_balance := p.locked_balance - amount,
           cash_balance := p.cash_balance + amount }

/-- SET clause of the holding transfer on a trade. -/
def transferHolding (newOwner : Nat) (tp : Int) (h : Holding) : Holding :=
  { h with user_id := newOwner, status := HoldingStatus.tradable,
           listing_price := none, acquisition_price := tp }

/-- SET clause listing a holding for sale. -/
def listHolding (price : Int) (h : Holding) : Holding :=
  { h with status := HoldingStatus.listed, listing_price := some price }

/-- SET clause reverting a holding to `tradable` with listing cleared. -/
def unlistHolding (h : Holding) : Holding :=
  { h with status := HoldingStatus.tradable, listing_price := none }

/-- SET clause filling an order: `status = 'filled', quantity = 0`. -/
def fillOrder (o : Order) : Order :=
  { o with status := OrderStatus.filled, quantity := 0 }

/-- SET clause cancelling an order: `status = 'cancelled'`. -/
def cancelOrderRow (o : Order) : Order :=
  { o with status := OrderStatus.cancelled }

/-- SET clause decrementing a resting bid: `quantity = quantity - 1`. -/
def decrementOrder (o : Order) : Order :=
  { o with quantity := o.quantity - 1 }

/-- SET clause of finalization's partial fill: `quantity = rem`. -/
def setQuantity (q : Int) (o : Order) : Order :=
  { o with quantity := q }

theorem lockFunds_id (c : Int) (p : Profile) :
    Profile.id (lockFunds c p) = Profile.id p := rfl

theorem refundTakerBuy_id (pp tp : Int) (p : Profile) :
    Profile.id (refundTakerBuy pp tp p) = Profile.id p := rfl

theorem creditCash_id (tp : Int) (p : Profile) :
    Profile.id (creditCash tp p) = Profile.id p := rfl

theorem debitLocked_id (tp : Int) (p : Profile) :
    Profile.id (debitLocked tp p) = Profile.id p := rfl

theorem refundCancelBuy_id (a : Int) (p : Profile) :
    Profile.id (refundCancelBuy a p) = Profile.id p := rfl

theorem transferHolding_id (o : Nat) (tp : Int) (h : Holding) :
    Holding.id (transferHolding o tp h) = Holding.id h := rfl

theorem listHolding_id (pr : Int) (h : Holding) :
    Holding.id (listHolding pr h) = Holding.id h := rfl

theorem unlistHolding_id (h : Holding) :
    Holding.id (unlistHolding h) = Holding.id h := rfl

theorem fillOrder_id (o : Order) :
    Order.id (fillOrder o) = Order.id o := rfl

theorem cancelOrderRow_id (o : Order) :
    Order.id (cancelOrderRow o) = Order.id o := rfl

theorem decrementOrder_id (o : Order) :
    Order.id (decrementOrder o) = Order.id o := rfl

theorem setQuantity_id (q : Int) (o : Order) :
    Order.id (setQuantity q o) = Order.id o := rfl

/-- The trade-execution block of the buy-side matching loop of
`place_order` (comments `-- Execute Trade!` through `-- 5. Update
quantities` in the migration): refund the price improvement to the
taker-buyer, pay the maker-seller, transfer the holding, record the
trade, update prices, fill the resting ask, decrement remaining. -/
def execBuyTrade (p_user_id : Nat) (p_symbol : String) (p_price : Int)
    (db : DB) (rem : Int) (m : Order) : DB × Int :=
  let tp := m.price
  let ps1 := updateRow Profile.id p_user_id (refundTakerBuy p_price tp) db.profiles
  let db1 := { db with profiles := ps1 }
  let ps2 := updateRow Profile.id m.user_id (creditCash tp) db1.profiles
  let db2 := { db1 with profiles := ps2 }
  let db3 := match m.holding_id with
    | some hid =>
      let hs := updateRow Holding.id hid (transferHolding p_user_id tp) db2.holdings
      { db2 with holdings := hs }
    | none => db2
  let db4 := insertTrade db3 m.holding_id p_symbol p_user_id m.user_id tp
  let db5 := updatePricesAndLog db4 p_symbol tp
  let db6 := { db5 with orders := updateRow Order.id m.id fillOrder db5.orders }
  (db6, rem - 1)

/-- One iteration of the buy-side matching loop (`FOR v_match IN ... LOOP`):
`EXIT WHEN v_rem_qty = 0`; re-read the candidate's holding; if the row was
found and is no longer `listed` or no longer owned by the maker, cancel
the stale candidate and continue; otherwise execute the trade (a NULL
status/owner from a missing row makes the guard false, per PL/pgSQL). -/
def buyMatchStep (p_user_id : Nat) (p_symbol : String) (p_price : Int)
    (s : DB × Int) (m : Order) : DB × Int :=
  match s with
  | (db, rem) =>
    if rem = 0 then (db, rem)
    else
      match m.holding_id.bind (fun hid => findRow Holding.id hid db.holdings) with
      | some h =>
        if h.status ≠ HoldingStatus.listed ∨ h.user_id ≠ m.user_id then
          ({ db with orders := updateRow Order.id m.id cancelOrderRow db.orders }, rem)
        else execBuyTrade p_user_id p_symbol p_price db rem m
      | none => execBuyTrade p_user_id p_symbol p_price db rem m

/-- Candidate ordering of the buy-side scan:
`ORDER BY o.price ASC, o.created_at ASC`. -/
def askLE (a b : Order) : Prop :=
  a.price < b.price ∨ (a.price = b.price ∧ a.created_at ≤ b.created_at)

instance : DecidableRel askLE := fun _ _ =>
  inferInstanceAs (Decidable (_ ∨ _))

/-- Candidate ordering of the sell-side scan:
`ORDER BY o.price DESC, o.created_at ASC`. -/
def bidLE (a b : Order) : Prop :=
  b.price < a.price ∨ (a.price = b.price ∧ a.created_at ≤ b.created_at)

instance : DecidableRel bidLE := fun _ _ =>
  inferInstanceAs (Decidable (_ ∨ _))

/-- The buy-side candidate query of `place_order`:
open sell orders on the symbol, not the caller's, priced at or below the
incoming limit, by ascending price then ascending creation time. -/
def eligibleAsks (db : DB) (sym : String) (uid : Nat) (limit : Int) : List Order :=
  List.insertionSort askLE (db.orders.filter fun o =>
    decide (o.symbol = sym ∧ o.type = OrderType.sell ∧
      o.status = OrderStatus.open_ ∧ o.user_id ≠ uid ∧ o.price ≤ limit))

/-- The sell-side candidate query of `place_order`:
open buy orders on the symbol, not the caller's, priced at or above the
incoming limit, by descending price then ascending creation time. -/
def eligibleBids (db : DB) (sym : String) (uid : Nat) (limit : Int) : List Order :=
  List.insertionSort bidLE (db.orders.filter fun o =>
    decide (o.symbol = sym ∧ o.type = OrderType.buy ∧
      o.status = OrderStatus.open_ ∧ o.user_id ≠ uid ∧ limit ≤ o.price))

/-- One iteration of the sell-side matching loop: `EXIT WHEN v_rem_qty = 0`;
deduct the execution price from the resting buyer's locked balance, pay the
seller, transfer the holding, record the trade, update prices, then either
decrement the resting bid's quantity or fill it. -/
def sellMatchStep (p_user_id : Nat) (p_symbol : String) (p_holding_id : Option Nat)
    (s : DB × Int) (m : Order) : DB × Int :=
  match s with
  | (db, rem) =>
    if rem = 0 then (db, rem)
    else
      let tp := m.price
      let ps1 := updateRow Profile.id m.user_id (debitLocked tp) db.profiles
      let db1 := { db with profiles := ps1 }
      let ps2 := updateRow Profile.id p_user_id (creditCash tp) db1.profiles
      let db2 := { db1 with profiles := ps2 }
      let db3 := match p_holding_id with
        | some hid =>
          let hs := updateRow Holding.id hid (transferHolding m.user_id tp) db2.holdings
          { db2 with holdings := hs }
        | none => db2
      let db4 := insertTrade db3 p_holding_id p_symbol m.user_id p_user_id tp
      let db5 := updatePricesAndLog db4 p_symbol tp
      let db6 :=
        if m.quantity > 1 then
          { db5 with orders := updateRow Order.id m.id decrementOrder db5.orders }
        else
          { db5 with orders := updateRow Order.id m.id fillOrder db5.orders }
      (db6, rem - 1)

/-- Finalization of `place_order` (`-- 3. Finalize order status of the NEW
order`): fill the incoming order when nothing remains, shrink its quantity
when partially filled, and otherwise leave it untouched. -/
def finalizeOrder (db : DB) (oid : Nat) (rem p_quantity : Int) : DB :=
  if rem = 0 then
    { db with orders := updateRow Order.id oid fillOrder db.orders }
  else if rem < p_quantity then
    { db with orders := updateRow Order.id oid (setQuantity rem) db.orders }
  else db

/-- The row inserted by the buy branch:
`INSERT INTO orders (user_id, symbol, type, price, quantity, status)
 VALUES (p_user_id, p_symbol, p_type, p_price, p_quantity, 'open')`. -/
def newBuyOrder (db : DB) (p_user_id : Nat) (p_symbol : String)
    (p_price : Int) (p_quantity : Int) : Order :=
  { id := db.next_id, user_id := p_user_id, symbol := p_symbol,
    type := OrderType.buy, price := p_price, quantity := p_quantity,
    status := OrderStatus.open_, holding_id := none, created_at := db.now }

/-- The row inserted by the sell branch:
`INSERT INTO orders (user_id, symbol, type, price, quantity, holding_id, status)
 VALUES (p_user_id, p_symbol, p_type, p_price, 1, p_holding_id, 'open')`. -/
def newSellOrder (db : DB) (p_user_id : Nat) (p_symbol : String)
    (p_price : Int) (p_holding_id : Option Nat) : Order :=
  { id := db.next_id, user_id := p_user_id, symbol := p_symbol,
    type := OrderType.sell, price := p_price, quantity := 1,
    status := OrderStatus.open_, holding_id := p_holding_id,
    created_at := db.now }

/-- The buy branch of `place_order` after validation: lock
`p_price * p_quantity` of the buyer's cash, insert the new open order,
record the state at that point. -/
def buyInsert (db : DB) (p_user_id : Nat) (p_symbol : String)
    (p_price : Int) (p_quantity : Int) : DB :=
  let v_total_cost := p_price * p_quantity
  let ps := updateRow Profile.id p_user_id (lockFunds v_total_cost) db.profiles
  let db1 := { db with profiles := ps }
  { db1 with
    orders := db1.orders ++ [newBuyOrder db p_user_id p_symbol p_price p_quantity],
    next_id := db1.next_id + 1,
    now := db1.now + 1 }

/-- The matching loop of the buy branch, run over the candidate snapshot. -/
def buyLoop (db2 : DB) (p_user_id : Nat) (p_symbol : String)
    (p_price : Int) (p_quantity : Int) : DB × Int :=
  (eligibleAsks db2 p_symbol p_user_id p_price).foldl
    (buyMatchStep p_user_id p_symbol p_price) (db2, p_quantity)

/-- The sell branch of `place_order` after validation: set the holding
`listed` with the ask recorded on it, insert the new open ask (quantity 1,
bound to the holding). -/
def sellInsert (db : DB) (p_user_id : Nat) (p_symbol : String)
    (p_price : Int) (p_holding_id : Option Nat) : DB :=
  let db1 := match p_holding_id with
    | some hid =>
      { db with holdings := updateRow Holding.id hid (listHolding p_price) db.holdings }
    | none => db
  { db1 with
    orders := db1.orders ++ [newSellOrder db p_user_id p_symbol p_price p_holding_id],
    next_id := db1.next_id + 1,
    now := db1.now + 1 }

/-- The matching loop of the sell branch, run over the candidate snapshot. -/
def sellLoop (db2 : DB) (p_user_id : Nat) (p_symbol : String)
    (p_price : Int) (p_quantity : Int) (p_holding_id : Option Nat) : DB × Int :=
  (eligibleBids db2 p_symbol p_user_id p_price).foldl
    (sellMatchStep p_user_id p_symbol p_holding_id) (db2, p_quantity)

/-- `place_order(p_user_id, p_symbol, p_type, p_price, p_quantity,
p_holding_id)` from the CLOB migration.  Returns the new order id together
with the resulting state, or the raise message with the (unchanged) state
at the moment of the raise. -/
def place_order (db : DB) (p_user_id : Nat) (p_symbol : String)
    (p_type : OrderType) (p_price : Int) (p_quantity : Int)
    (p_holding_id : Option Nat) : Except (String × DB) (DB × Nat) :=
  if p_type = OrderType.sell ∧ (p_quantity ≠ 1 ∨ p_holding_id = none) then
    Except.error ("Sell orders must have quantity=1 and a specific holding_id", db)
  else if p_type = OrderType.buy ∧ p_holding_id ≠ none then
    Except.error ("Buy orders cannot have a holding_id", db)
  else if p_type = OrderType.buy then
    let v_total_cost := p_price * p_quantity
    let proceed : Bool :=
      match findRow Profile.id p_user_id db.profiles with
      | some prof => decide (¬ prof.cash_balance < v_total_cost)
      | none => true
    if proceed then
      let db2 := buyInsert db p_user_id p_symbol p_price p_quantity
      let r := buyLoop db2 p_user_id p_symbol p_price p_quantity
      Except.ok (finalizeOrder r.1 db.next_id r.2 p_quantity, db.next_id)
    else
      Except.error ("Insufficient funds", db)
  else
    let ok : Bool :=
      match p_holding_id.bind (fun hid => findRow Holding.id hid db.holdings) with
      | some h =>
        decide (¬ (h.user_id ≠ p_user_id ∨ h.status ≠ HoldingStatus.tradable))
      | none => true
    if ok then
      let db2 := sellInsert db p_user_id p_symbol p_price p_holding_id
      let r := sellLoop db2 p_user_id p_symbol p_price p_quantity p_holding_id
      Except.ok (finalizeOrder r.1 db.next_id r.2 p_quantity, db.next_id)
    else
      Except.error ("Holding is not yours or not tradable", db)

/-- `cancel_order(p_order_id, p_user_id)` from the CLOB migration. -/
def cancel_order (db : DB) (p_order_id : Nat) (p_user_id : Nat) :
    Except (String × DB) (DB × Bool) :=
  match db.orders.find? (fun o => decide (o.id = p_order_id ∧
      o.user_id = p_user_id ∧ o.status = OrderStatus.open_)) with
  | none => Except.error ("Order not found or not open", db)
  | some v_order =>
    let db1 := { db with orders := updateRow Order.id p_order_id cancelOrderRow db.orders }
    let db2 :=
      if v_order.type = OrderType.buy then
        let ps := updateRow Profile.id p_user_id
          (refundCancelBuy (v_order.price * v_order.quantity)) db1.profiles
        { db1 with profiles := ps }
      else
        match v_order.holding_id with
        | some hid =>
          { db1 with holdings := updateRow Holding.id hid unlistHolding db1.holdings }
        | none => db1
    Except.ok (db2, true)

/-! ## Generic lemmas about row lookup and update -/

variable {α : Type} {key : α → Nat} {f : α → α} {k k' : Nat} {l : List α}

theorem updateRow_eq_of_forall_ne (h : ∀ x ∈ l, key x ≠ k) :
    updateRow key k f l = l := by
  induction l with
  | nil => rfl
  | cons a t ih =>
    have ha : key a ≠ k := h a (List.mem_cons_self a t)
    simp only [updateRow, List.map_cons, if_neg ha]
    have := ih (fun x hx => h x (List.mem_cons_of_mem a hx))
    simpa [updateRow] using this

theorem findRow_updateRow_self (hf : ∀ x, key (f x) = key x) :
    findRow key k (updateRow key k f l) = (findRow key k l).map f := by
  induction l with
  | nil => rfl
  | cons a t ih =>
    by_cases ha : key a = k
    · simp only [updateRow, findRow, List.map_cons, if_pos ha]
      rw [List.find?_cons_of_pos, List.find?_cons_of_pos]
      · rfl
      · simpa using ha
      · simpa [hf] using ha
    · simp only [updateRow, findRow, List.map_cons, if_neg ha]
      rw [List.find?_cons_of_neg, List.find?_cons_of_neg]
      · exact ih
      · simpa using ha
      · simpa using ha

theorem findRow_updateRow_ne (hf : ∀ x, key (f x) = key x) (hne : k' ≠ k) :
    findRow key k' (updateRow key k f l) = findRow key k' l := by
  induction l with
  | nil => rfl
  | cons a t ih =>
    by_cases ha : key a = k
    · simp only [updateRow, findRow, List.map_cons, if_pos ha]
      rw [List.find?_cons_of_neg, List.find?_cons_of_neg]
      · exact ih
      · simp only [ha, decide_eq_true_eq]
        exact fun h => hne h.symm
      · simp only [hf, ha, decide_eq_true_eq]
        exact fun h => hne h.symm
    · simp only [updateRow, findRow, List.map_cons, if_neg ha]
      by_cases ha' : key a = k'
      · rw [List.find?_cons_of_pos, List.find?_cons_of_pos] <;> simpa using ha'
      · rw [List.find?_cons_of_neg, List.find?_cons_of_neg]
        · exact ih
        · simpa using ha'
        · simpa using ha'

theorem mem_updateRow_of_ne {x : α} (hx : x ∈ l) (hne : key x ≠ k) :
    x ∈ updateRow key k f l := by
  have h := List.mem_map_of_mem (fun y => if key y = k then f y else y) hx
  simp only [if_neg hne] at h
  exact h

theorem map_key_updateRow (hf : ∀ x, key (f x) = key x) :
    (updateRow key k f l).map key = l.map key := by
  induction l with
  | nil => rfl
  | cons a t ih =>
    by_cases ha : key a = k <;>
      simp only [updateRow, List.map_cons, if_pos, if_neg, ha, hf] <;>
      simpa [updateRow] using ih

theorem find?_eq_some_unique {p : α → Bool} {x : α}
    (hmem : x ∈ l) (hpx : p x = true)
    (huniq : ∀ y ∈ l, p y = true → y = x) :
    l.find? p = some x := by
  induction l with
  | nil => exact absurd hmem (List.not_mem_nil x)
  | cons a t ih =>
    by_cases hpa : p a = true
    · have : a = x := huniq a (List.mem_cons_self a t) hpa
      rw [List.find?_cons_of_pos t hpa, this]
    · rw [List.find?_cons_of_neg t hpa]
      have hxt : x ∈ t := by
        rcases List.mem_cons.mp hmem with h | h
        · exact absurd (h ▸ hpx) hpa
        · exact h
      exact ih hxt (fun y hy => huniq y (List.mem_cons_of_mem a hy))

theorem findRow_eq_some_of_nodup {x : α}
    (hnd : (l.map key).Nodup) (hmem : x ∈ l) (hk : key x = k) :
    findRow key k l = some x := by
  refine find?_eq_some_unique hmem (by simpa using hk) ?_
  intro y hy hyk
  exact List.inj_on_of_nodup_map hnd hy hmem (by simpa [hk] using hyk)

/-! ## Cash accounting -/

/-- Total cash in the system: the sum of `cash_balance + locked_balance`
over all `profiles` rows. -/
def sumCash (ps : List Profile) : Int :=
  (ps.map fun p => p.cash_balance + p.locked_balance).sum

theorem sumCash_updateRow {ps : List Profile} {uid : Nat} {g : Profile → Profile} {δ : Int}
    (hδ : ∀ p, p.id = uid →
      (g p).cash_balance + (g p).locked_balance =
        (p.cash_balance + p.locked_balance) + δ)
    (hnd : (ps.map Profile.id).Nodup)
    (hmem : ∃ p ∈ ps, p.id = uid) :
    sumCash (updateRow Profile.id uid g ps) = sumCash ps + δ := by
  induction ps with
  | nil => simp at hmem
  | cons a t ih =>
    simp only [List.map_cons, List.nodup_cons] at hnd
    by_cases ha : a.id = uid
    · have ht : updateRow Profile.id uid g t = t := by
        refine updateRow_eq_of_forall_ne ?_
        intro x hx hxk
        refine absurd ?_ hnd.1
        rw [ha, ← hxk]
        exact List.mem_map_of_mem _ hx
      simp only [updateRow, List.map_cons, if_pos ha, sumCash, List.sum_cons]
      have := hδ a ha
      have htr : (t.map fun x => if x.id = uid then g x else x) = t := by
        simpa [updateRow] using ht
      rw [htr]
      simp only [sumCash] at *
      omega
    · rcases hmem with ⟨p, hp, hpk⟩
      rcases List.mem_cons.mp hp with rfl | hpt
      · exact absurd hpk ha
      · simp only [updateRow, List.map_cons, if_neg ha, sumCash, List.sum_cons]
        have := ih hnd.2 ⟨p, hpt, hpk⟩
        simp only [sumCash, updateRow] at this
        rw [this]
        omega

/-! ## C7: error paths -/

/-- **C7.** Whenever `place_order` or `cancel_order` fails with a
user-visible error — a sell with quantity ≠ 1 or no holding reference, a
buy carrying a holding reference, a buy whose available cash is below
`limit × quantity`, a sell whose referenced holding is not owned by the
caller or not tradable, or a cancel of a missing, foreign, or non-open
order — the call raises before any mutation: the returned error state is
exactly the input state, so every balance, holding and order is
unchanged. -/
theorem error_paths_leave_state_unchanged :
    (∀ (db : DB) uid sym price qty hid, qty ≠ 1 ∨ hid = none →
      place_order db uid sym OrderType.sell price qty hid =
        Except.error ("Sell orders must have quantity=1 and a specific holding_id", db)) ∧
    (∀ (db : DB) uid sym price qty hid, hid ≠ none →
      place_order db uid sym OrderType.buy price qty hid =
        Except.error ("Buy orders cannot have a holding_id", db)) ∧
    (∀ (db : DB) uid sym price qty prof,
      findRow Profile.id uid db.profiles = some prof →
      prof.cash_balance < price * qty →
      place_order db uid sym OrderType.buy price qty none =
        Except.error ("Insufficient funds", db)) ∧
    (∀ (db : DB) uid sym price hid h,
      findRow Holding.id hid db.holdings = some h →
      h.user_id ≠ uid ∨ h.status ≠ HoldingStatus.tradable →
      place_order db uid sym OrderType.sell price 1 (some hid) =
        Except.error ("Holding is not yours or not tradable", db)) ∧
    (∀ (db : DB) oid uid,
      (∀ o ∈ db.orders, ¬(o.id = oid ∧ o.user_id = uid ∧ o.status = OrderStatus.open_)) →
      cancel_order db oid uid = Except.error ("Order not found or not open", db)) := by
  refine ⟨?_, ?_, ?_, ?_, ?_⟩
  · intro db uid sym price qty hid h
    simp [place_order, h]
  · intro db uid sym price qty hid h
    simp [place_order, h]
  · intro db uid sym price qty prof hfind hlt
    simp [place_order, hfind, hlt]
  · intro db uid sym price hid h hfind hbad
    have : ¬ ¬ (h.user_id ≠ uid ∨ h.status ≠ HoldingStatus.tradable) := not_not_intro hbad
    simp [place_order, hfind, this]
  · intro db oid uid hnone
    have hfind : db.orders.find? (fun o => decide (o.id = oid ∧
        o.user_id = uid ∧ o.status = OrderStatus.open_)) = none := by
      rw [List.find?_eq_none]
      intro o ho
      simpa using hnone o ho
    unfold cancel_order
    rw [hfind]

/-- A small state exercising every error path of C7: caller 1 has 5 in
cash; holding 100 belongs to user 2; there are no orders. -/
def dbW7 : DB :=
  { profiles := [{ id := 1, cash_balance := 5, locked_balance := 0 }],
    holdings := [{ id := 100, user_id := 2, symbol := "X",
                   status := HoldingStatus.tradable,
                   acquisition_price := 0, listing_price := none }],
    orders := [], trades := [], cards := [], prices := [],
    price_history := [], next_id := 10, now := 0 }

/-- Witness for C7: each error path, exercised on `dbW7`, returns the
input state unchanged. -/
theorem error_paths_leave_state_unchanged_witness :
    place_order dbW7 1 "X" OrderType.sell 10 2 (some 100) =
      Except.error ("Sell orders must have quantity=1 and a specific holding_id", dbW7) ∧
    place_order dbW7 1 "X" OrderType.buy 10 1 (some 100) =
      Except.error ("Buy orders cannot have a holding_id", dbW7) ∧
    place_order dbW7 1 "X" OrderType.buy 10 1 none =
      Except.error ("Insufficient funds", dbW7) ∧
    place_order dbW7 1 "X" OrderType.sell 10 1 (some 100) =
      Except.error ("Holding is not yours or not tradable", dbW7) ∧
    cancel_order dbW7 5 1 =
      Except.error ("Order not found or not open", dbW7) := by
  obtain ⟨h1, h2, h3, h4, h5⟩ := error_paths_leave_state_unchanged
  refine ⟨?_, ?_, ?_, ?_, ?_⟩
  · exact h1 dbW7 1 "X" 10 2 (some 100) (Or.inl (by decide))
  · exact h2 dbW7 1 "X" 10 1 (some 100) (by decide)
  · exact h3 dbW7 1 "X" 10 1 { id := 1, cash_balance := 5, locked_balance := 0 }
      (by decide) (by decide)
  · exact h4 dbW7 1 "X" 10 100
      { id := 100, user_id := 2, symbol := "X",
        status := HoldingStatus.tradable,
        acquisition_price := 0, listing_price := none }
      (by decide) (Or.inl (by decide))
  · exact h5 dbW7 5 1 (by decide)

/-! ## Effects of one matched unit (buy taker) -/

theorem updatePricesAndLog_profiles (db : DB) (sym : String) (tp : Int) :
    (updatePricesAndLog db sym tp).profiles = db.profiles := rfl

theorem updatePricesAndLog_holdings (db : DB) (sym : String) (tp : Int) :
    (updatePricesAndLog db sym tp).holdings = db.holdings := rfl

theorem updatePricesAndLog_orders (db : DB) (sym : String) (tp : Int) :
    (updatePricesAndLog db sym tp).orders = db.orders := rfl

theorem updatePricesAndLog_trades (db : DB) (sym : String) (tp : Int) :
    (updatePricesAndLog db sym tp).trades = db.trades := rfl

theorem updatePricesAndLog_next_id (db : DB) (sym : String) (tp : Int) :
    (updatePricesAndLog db sym tp).next_id = db.next_id := rfl

theorem updatePricesAndLog_now (db : DB) (sym : String) (tp : Int) :
    (updatePricesAndLog db sym tp).now = db.now := rfl

/-- When the remaining quantity is positive and the candidate's holding
re-read confirms it is still `listed` and still owned by the maker, the
loop body executes the trade block. -/
theorem buyMatchStep_eq_exec {db : DB} {rem : Int} {m : Order} {hid : Nat}
    {h : Holding} {uid : Nat} {sym : String} {price : Int}
    (hrem : rem ≠ 0) (hhid : m.holding_id = some hid)
    (hfind : findRow Holding.id hid db.holdings = some h)
    (hstat : h.status = HoldingStatus.listed)
    (howner : h.user_id = m.user_id) :
    buyMatchStep uid sym price (db, rem) m = execBuyTrade uid sym price db rem m := by
  simp only [buyMatchStep, if_neg hrem, hhid, Option.some_bind, hfind]
  rw [if_neg]
  simp [hstat, howner]

/-- **C1.** Every matched unit executes at the resting (maker) order's
price, never the incoming taker's limit. Buy-taker path (left conjunct):
the trade is appended at the resting ask's price `m.price`, exactly the
limit price is removed from the taker's locked cash, the difference
`limit − execution` is credited back to the taker's available cash, the
seller's available cash increases by the execution price, and the holding
is transferred to the buyer with status `tradable` and its listing price
cleared. Sell-taker path (right conjunct): every effective iteration of
the bid loop appends the trade at the resting bid's price `m.price`, with
the resting bidder as buyer and the incoming seller as seller — the
taker's limit price never appears. -/
theorem trade_executes_at_maker_price :
    (∀ (db : DB) (uid : Nat) (sym : String) (p_price rem : Int) (m : Order)
       (hid : Nat) (h : Holding) (bp sp : Profile),
      rem ≠ 0 →
      m.holding_id = some hid →
      findRow Holding.id hid db.holdings = some h →
      h.status = HoldingStatus.listed →
      h.user_id = m.user_id →
      uid ≠ m.user_id →
      findRow Profile.id uid db.profiles = some bp →
      findRow Profile.id m.user_id db.profiles = some sp →
      (buyMatchStep uid sym p_price (db, rem) m).1.trades =
        db.trades ++ [{ holding_id := some hid, symbol := sym, buyer_id := uid,
                        seller_id := m.user_id, price := m.price,
                        executed_at := db.now }] ∧
      findRow Profile.id uid (buyMatchStep uid sym p_price (db, rem) m).1.profiles =
        some { bp with locked_balance := bp.locked_balance - p_price,
                       cash_balance := bp.cash_balance + (p_price - m.price) } ∧
      findRow Profile.id m.user_id (buyMatchStep uid sym p_price (db, rem) m).1.profiles =
        some { sp with cash_balance := sp.cash_balance + m.price } ∧
      findRow Holding.id hid (buyMatchStep uid sym p_price (db, rem) m).1.holdings =
        some { h with user_id := uid, status := HoldingStatus.tradable,
                      listing_price := none, acquisition_price := m.price }) ∧
    (∀ (db : DB) (uid : Nat) (sym : String) (rem : Int) (m : Order)
       (phid : Option Nat),
      rem ≠ 0 →
      (sellMatchStep uid sym phid (db, rem) m).1.trades =
        db.trades ++ [{ holding_id := phid, symbol := sym,
                        buyer_id := m.user_id, seller_id := uid,
                        price := m.price, executed_at := db.now }]) := by
  constructor
  · intro db uid sym p_price rem m hid h bp sp
    intro hrem hhid hfind hstat howner hne hbp hsp
    rw [buyMatchStep_eq_exec hrem hhid hfind hstat howner]
    simp only [execBuyTrade, insertTrade, hhid]
    have hne' : m.user_id ≠ uid := Ne.symm hne
    refine ⟨?_, ?_, ?_, ?_⟩
    · rw [updatePricesAndLog_trades]
    · simp only [updatePricesAndLog_profiles]
      refine ((findRow_updateRow_ne ?_ hne).trans ?_)
      · intro x; rfl
      refine ((findRow_updateRow_self ?_).trans ?_)
      · intro x; rfl
      rw [hbp]; rfl
    · simp only [updatePricesAndLog_profiles]
      refine ((findRow_updateRow_self ?_).trans ?_)
      · intro x; rfl
      refine (congrArg (Option.map _) ((findRow_updateRow_ne ?_ hne').trans hsp)).trans ?_
      · intro x; rfl
      rfl
    · simp only [updatePricesAndLog_holdings]
      refine ((findRow_updateRow_self ?_).trans ?_)
      · intro x; rfl
      rw [hfind]; rfl
  · intro db uid sym rem m phid hrem
    simp only [sellMatchStep, if_neg hrem]
    cases phid <;> by_cases hq : m.quantity > 1 <;> simp [hq] <;> rfl

/-- A resting ask of user 3 at 95, bound to listed holding 101. -/
def mW1 : Order :=
  { id := 11, user_id := 3, symbol := "X", type := OrderType.sell, price := 95,
    quantity := 1, status := OrderStatus.open_, holding_id := some 101,
    created_at := 2 }

/-- The listed holding backing `mW1`. -/
def hW1 : Holding :=
  { id := 101, user_id := 3, symbol := "X", status := HoldingStatus.listed,
    acquisition_price := 0, listing_price := some 95 }

/-- Buyer profile for the C1 witness. -/
def bpW1 : Profile := { id := 1, cash_balance := 1000, locked_balance := 200 }

/-- Seller profile for the C1 witness. -/
def spW1 : Profile := { id := 3, cash_balance := 50, locked_balance := 0 }

/-- State for the C1 witness. -/
def dbW1 : DB :=
  { profiles := [bpW1, spW1], holdings := [hW1], orders := [mW1],
    trades := [], cards := [], prices := [], price_history := [],
    next_id := 20, now := 5 }

/-- A resting bid of user 4 at 90, used for the sell-taker half of the
C1 witness. -/
def mW1b : Order :=
  { id := 12, user_id := 4, symbol := "X", type := OrderType.buy, price := 90,
    quantity := 2, status := OrderStatus.open_, holding_id := none,
    created_at := 3 }

/-- Witness for C1: buyer 1 with limit 120 matched against the ask at 95
executes at 95, and an incoming seller matched against the resting bid at
90 executes at 90. -/
theorem trade_executes_at_maker_price_witness :
    ((buyMatchStep 1 "X" 120 (dbW1, 1) mW1).1.trades =
      dbW1.trades ++ [{ holding_id := some 101, symbol := "X", buyer_id := 1,
                        seller_id := mW1.user_id, price := mW1.price,
                        executed_at := dbW1.now }] ∧
    findRow Profile.id 1 (buyMatchStep 1 "X" 120 (dbW1, 1) mW1).1.profiles =
      some { bpW1 with locked_balance := bpW1.locked_balance - 120,
                       cash_balance := bpW1.cash_balance + (120 - mW1.price) } ∧
    findRow Profile.id mW1.user_id (buyMatchStep 1 "X" 120 (dbW1, 1) mW1).1.profiles =
      some { spW1 with cash_balance := spW1.cash_balance + mW1.price } ∧
    findRow Holding.id 101 (buyMatchStep 1 "X" 120 (dbW1, 1) mW1).1.holdings =
      some { hW1 with user_id := 1, status := HoldingStatus.tradable,
                      listing_price := none, acquisition_price := mW1.price }) ∧
    (sellMatchStep 3 "X" (some 101) (dbW1, 1) mW1b).1.trades =
      dbW1.trades ++ [{ holding_id := some 101, symbol := "X",
                        buyer_id := mW1b.user_id, seller_id := 3,
                        price := mW1b.price, executed_at := dbW1.now }] :=
  ⟨trade_executes_at_maker_price.1 dbW1 1 "X" 120 1 mW1 101 hW1 bpW1 spW1
    (by decide) rfl (by decide) rfl rfl (by decide) (by decide) (by decide),
   trade_executes_at_maker_price.2 dbW1 3 "X" 1 mW1b (some 101) (by decide)⟩

/-! ## C2: cash conservation -/

theorem findRow_mem_key {x : α} (h : findRow key k l = some x) :
    x ∈ l ∧ key x = k :=
  ⟨List.mem_of_find?_eq_some h, by simpa using List.find?_some h⟩

/-- **C2.** For every trade executed by `place_order` — taker buyer (left
conjunct) or taker seller (right conjunct) — the buyer's available plus
locked cash decreases by exactly the execution price, the seller's
available cash increases by exactly the execution price, and the total of
all accounts' available plus locked cash is unchanged. -/
theorem executed_trade_conserves_cash :
    (∀ (db : DB) (uid : Nat) (sym : String) (p_price rem : Int) (m : Order)
       (hid : Nat) (h : Holding) (bp sp : Profile),
      rem ≠ 0 →
      m.holding_id = some hid →
      findRow Holding.id hid db.holdings = some h →
      h.status = HoldingStatus.listed →
      h.user_id = m.user_id →
      uid ≠ m.user_id →
      findRow Profile.id uid db.profiles = some bp →
      findRow Profile.id m.user_id db.profiles = some sp →
      (db.profiles.map Profile.id).Nodup →
      ((findRow Profile.id uid
          (buyMatchStep uid sym p_price (db, rem) m).1.profiles).map
            fun p => p.cash_balance + p.locked_balance) =
        some (bp.cash_balance + bp.locked_balance - m.price) ∧
      ((findRow Profile.id m.user_id
          (buyMatchStep uid sym p_price (db, rem) m).1.profiles).map
            fun p => p.cash_balance) =
        some (sp.cash_balance + m.price) ∧
      sumCash (buyMatchStep uid sym p_price (db, rem) m).1.profiles =
        sumCash db.profiles) ∧
    (∀ (db : DB) (uid : Nat) (sym : String) (rem : Int) (m : Order)
       (phid : Option Nat) (bp sp : Profile),
      rem ≠ 0 →
      uid ≠ m.user_id →
      findRow Profile.id m.user_id db.profiles = some bp →
      findRow Profile.id uid db.profiles = some sp →
      (db.profiles.map Profile.id).Nodup →
      ((findRow Profile.id m.user_id
          (sellMatchStep uid sym phid (db, rem) m).1.profiles).map
            fun p => p.cash_balance + p.locked_balance) =
        some (bp.cash_balance + bp.locked_balance - m.price) ∧
      ((findRow Profile.id uid
          (sellMatchStep uid sym phid (db, rem) m).1.profiles).map
            fun p => p.cash_balance) =
        some (sp.cash_balance + m.price) ∧
      sumCash (sellMatchStep uid sym phid (db, rem) m).1.profiles =
        sumCash db.profiles) := by
  constructor
  · intro db uid sym p_price rem m hid h bp sp
    intro hrem hhid hfind hstat howner hne hbp hsp hnd
    have hne' : m.user_id ≠ uid := Ne.symm hne
    rw [buyMatchStep_eq_exec hrem hhid hfind hstat howner]
    simp only [execBuyTrade, insertTrade, hhid, updatePricesAndLog_profiles]
    obtain ⟨hbp_mem, hbp_key⟩ := findRow_mem_key hbp
    obtain ⟨hsp_mem, hsp_key⟩ := findRow_mem_key hsp
    refine ⟨?_, ?_, ?_⟩
    · rw [findRow_updateRow_ne (creditCash_id m.price) hne,
        findRow_updateRow_self (refundTakerBuy_id p_price m.price),
        hbp]
      simp only [Option.map_some', refundTakerBuy, Option.some.injEq]
      ring
    · rw [findRow_updateRow_self (creditCash_id m.price),
        findRow_updateRow_ne (refundTakerBuy_id p_price m.price) hne',
        hsp]
      simp [creditCash]
    · have hnd1 : ((updateRow Profile.id uid (refundTakerBuy p_price m.price)
          db.profiles).map Profile.id).Nodup := by
        rw [map_key_updateRow (refundTakerBuy_id p_price m.price)]
        exact hnd
      have hmem_s1 : ∃ p ∈ updateRow Profile.id uid (refundTakerBuy p_price m.price)
          db.profiles, p.id = m.user_id := by
        refine ⟨sp, mem_updateRow_of_ne hsp_mem ?_, hsp_key⟩
        rw [hsp_key]
        exact hne'
      rw [sumCash_updateRow (g := creditCash m.price) (δ := m.price)
          (by intro p _; simp [creditCash]; ring) hnd1 hmem_s1,
        sumCash_updateRow (g := refundTakerBuy p_price m.price) (δ := -m.price)
          (by intro p _; simp [refundTakerBuy]; ring) hnd ⟨bp, hbp_mem, hbp_key⟩]
      ring
  · intro db uid sym rem m phid bp sp
    intro hrem hne hbp hsp hnd
    have hne' : m.user_id ≠ uid := Ne.symm hne
    simp only [sellMatchStep, if_neg hrem]
    obtain ⟨hbp_mem, hbp_key⟩ := findRow_mem_key hbp
    obtain ⟨hsp_mem, hsp_key⟩ := findRow_mem_key hsp
    have goal1 : (findRow Profile.id m.user_id
        (updateRow Profile.id uid (creditCash m.price)
          (updateRow Profile.id m.user_id (debitLocked m.price) db.profiles))).map
            (fun p => p.cash_balance + p.locked_balance) =
        some (bp.cash_balance + bp.locked_balance - m.price) := by
      rw [findRow_updateRow_ne (creditCash_id m.price) hne',
        findRow_updateRow_self (debitLocked_id m.price), hbp]
      simp only [Option.map_some', debitLocked, Option.some.injEq]
      ring
    have goal2 : (findRow Profile.id uid
        (updateRow Profile.id uid (creditCash m.price)
          (updateRow Profile.id m.user_id (debitLocked m.price) db.profiles))).map
            (fun p => p.cash_balance) = some (sp.cash_balance + m.price) := by
      rw [findRow_updateRow_self (creditCash_id m.price),
        findRow_updateRow_ne (debitLocked_id m.price) hne, hsp]
      simp [creditCash]
    have goal3 : sumCash (updateRow Profile.id uid (creditCash m.price)
        (updateRow Profile.id m.user_id (debitLocked m.price) db.profiles)) =
        sumCash db.profiles := by
      have hnd1 : ((updateRow Profile.id m.user_id (debitLocked m.price)
          db.profiles).map Profile.id).Nodup := by
        rw [map_key_updateRow (debitLocked_id m.price)]
        exact hnd
      have hmem_s1 : ∃ p ∈ updateRow Profile.id m.user_id (debitLocked m.price)
          db.profiles, p.id = uid := by
        refine ⟨sp, mem_updateRow_of_ne hsp_mem ?_, hsp_key⟩
        rw [hsp_key]
        exact hne
      rw [sumCash_updateRow (g := creditCash m.price) (δ := m.price)
          (by intro p _; simp [creditCash]; ring) hnd1 hmem_s1,
        sumCash_updateRow (g := debitLocked m.price) (δ := -m.price)
          (by intro p _; simp [debitLocked]; ring) hnd ⟨bp, hbp_mem, hbp_key⟩]
      ring
    cases phid <;> by_cases hq : m.quantity > 1 <;>
      first
      | (simp only [if_pos hq, updatePricesAndLog_profiles, insertTrade]
         exact ⟨goal1, goal2, goal3⟩)
      | (simp only [if_neg hq, updatePricesAndLog_profiles, insertTrade]
         exact ⟨goal1, goal2, goal3⟩)

/-- A resting bid of user 4 at 90 for quantity 2. -/
def mW2 : Order :=
  { id := 12, user_id := 4, symbol := "X", type := OrderType.buy, price := 90,
    quantity := 2, status := OrderStatus.open_, holding_id := none,
    created_at := 3 }

/-- Resting-bid buyer profile for the C2 witness. -/
def bpW2 : Profile := { id := 4, cash_balance := 10, locked_balance := 180 }

/-- Taker-seller profile for the C2 witness. -/
def spW2 : Profile := { id := 5, cash_balance := 7, locked_balance := 0 }

/-- State for the sell-taker half of the C2 witness. -/
def dbW2 : DB :=
  { profiles := [bpW2, spW2],
    holdings := [{ id := 102, user_id := 5, symbol := "X",
                   status := HoldingStatus.listed,
                   acquisition_price := 0, listing_price := some 90 }],
    orders := [mW2], trades := [], cards := [], prices := [],
    price_history := [], next_id := 30, now := 9 }

/-- Witness for C2: conservation on a concrete buy-taker trade and a
concrete sell-taker trade. -/
theorem executed_trade_conserves_cash_witness :
    ((findRow Profile.id 1 (buyMatchStep 1 "X" 120 (dbW1, 1) mW1).1.profiles).map
        fun p => p.cash_balance + p.locked_balance) =
      some (bpW1.cash_balance + bpW1.locked_balance - mW1.price) ∧
    ((findRow Profile.id mW1.user_id
        (buyMatchStep 1 "X" 120 (dbW1, 1) mW1).1.profiles).map
        fun p => p.cash_balance) = some (spW1.cash_balance + mW1.price) ∧
    sumCash (buyMatchStep 1 "X" 120 (dbW1, 1) mW1).1.profiles =
      sumCash dbW1.profiles ∧
    ((findRow Profile.id mW2.user_id
        (sellMatchStep 5 "X" (some 102) (dbW2, 1) mW2).1.profiles).map
        fun p => p.cash_balance + p.locked_balance) =
      some (bpW2.cash_balance + bpW2.locked_balance - mW2.price) ∧
    ((findRow Profile.id 5 (sellMatchStep 5 "X" (some 102) (dbW2, 1) mW2).1.profiles).map
        fun p => p.cash_balance) = some (spW2.cash_balance + mW2.price) ∧
    sumCash (sellMatchStep 5 "X" (some 102) (dbW2, 1) mW2).1.profiles =
      sumCash dbW2.profiles := by
  obtain ⟨hbuy, hsell⟩ := executed_trade_conserves_cash
  have h1 := hbuy dbW1 1 "X" 120 1 mW1 101 hW1 bpW1 spW1 (by decide) rfl
    (by decide) rfl rfl (by decide) (by decide) (by decide) (by decide)
  have h2 := hsell dbW2 5 "X" 1 mW2 (some 102) bpW2 spW2 (by decide) (by decide)
    (by decide) (by decide) (by decide)
  exact ⟨h1.1, h1.2.1, h1.2.2, h2.1, h2.2.1, h2.2.2⟩

/-! ## C3: candidate selection and price-time priority -/

instance : IsTotal Order askLE where
  total a b := by
    unfold askLE
    rcases lt_trichotomy a.price b.price with h | h | h
    · exact Or.inl (Or.inl h)
    · rcases Nat.le_total a.created_at b.created_at with hc | hc
      · exact Or.inl (Or.inr ⟨h, hc⟩)
      · exact Or.inr (Or.inr ⟨h.symm, hc⟩)
    · exact Or.inr (Or.inl h)

instance : IsTrans Order askLE where
  trans a b c hab hbc := by
    unfold askLE at *
    rcases hab with h1 | ⟨e1, c1⟩ <;> rcases hbc with h2 | ⟨e2, c2⟩
    · exact Or.inl (h1.trans h2)
    · exact Or.inl (lt_of_lt_of_eq h1 e2)
    · exact Or.inl (lt_of_eq_of_lt e1 h2)
    · exact Or.inr ⟨e1.trans e2, c1.trans c2⟩

/-- Membership in the buy-side candidate snapshot. -/
theorem mem_eligibleAsks {db : DB} {sym : String} {uid : Nat} {limit : Int}
    {o : Order} :
    o ∈ eligibleAsks db sym uid limit ↔
      o ∈ db.orders ∧ o.symbol = sym ∧ o.type = OrderType.sell ∧
      o.status = OrderStatus.open_ ∧ o.user_id ≠ uid ∧ o.price ≤ limit := by
  rw [eligibleAsks, (List.perm_insertionSort askLE _).mem_iff, List.mem_filter]
  simp [decide_eq_true_eq, and_assoc]

/-- Membership in the sell-side candidate snapshot. -/
theorem mem_eligibleBids {db : DB} {sym : String} {uid : Nat} {limit : Int}
    {o : Order} :
    o ∈ eligibleBids db sym uid limit ↔
      o ∈ db.orders ∧ o.symbol = sym ∧ o.type = OrderType.buy ∧
      o.status = OrderStatus.open_ ∧ o.user_id ≠ uid ∧ limit ≤ o.price := by
  rw [eligibleBids, (List.perm_insertionSort bidLE _).mem_iff, List.mem_filter]
  simp [decide_eq_true_eq, and_assoc]

/-- The `trades` table after a `place_order` call (on error, the state at
the raise). -/
def tradesAfter (r : Except (String × DB) (DB × Nat)) : List Trade :=
  match r with
  | Except.ok (db, _) => db.trades
  | Except.error (_, db) => db.trades

/-- The `orders` table after a `place_order` call. -/
def ordersAfter (r : Except (String × DB) (DB × Nat)) : List Order :=
  match r with
  | Except.ok (db, _) => db.orders
  | Except.error (_, db) => db.orders

/-- The `price_history` table after a `place_order` call. -/
def historyAfter (r : Except (String × DB) (DB × Nat)) : List Tick :=
  match r with
  | Except.ok (db, _) => db.price_history
  | Except.error (_, db) => db.price_history

/-- State for the C3 price-time-priority example: buyer 1 with 1000 cash;
asks on symbol X at 100 (created at time 1, order 10, user 2) and at 95
(created later at time 2, order 11, user 3), both backed by listed
holdings. -/
def dbC3 : DB :=
  { profiles := [{ id := 1, cash_balance := 1000, locked_balance := 0 },
                 { id := 2, cash_balance := 0, locked_balance := 0 },
                 { id := 3, cash_balance := 0, locked_balance := 0 }],
    holdings := [{ id := 100, user_id := 2, symbol := "X",
                   status := HoldingStatus.listed,
                   acquisition_price := 0, listing_price := some 100 },
                 { id := 101, user_id := 3, symbol := "X",
                   status := HoldingStatus.listed,
                   acquisition_price := 0, listing_price := some 95 }],
    orders := [{ id := 10, user_id := 2, symbol := "X", type := OrderType.sell,
                 price := 100, quantity := 1, status := OrderStatus.open_,
                 holding_id := some 100, created_at := 1 },
               { id := 11, user_id := 3, symbol := "X", type := OrderType.sell,
                 price := 95, quantity := 1, status := OrderStatus.open_,
                 holding_id := some 101, created_at := 2 }],
    trades := [], cards := [], prices := [], price_history := [],
    next_id := 20, now := 5 }

/-- **C3.** The matching loop of `place_order` for an incoming buy
considers exactly the resting sell orders of the same symbol with status
`open`, ask price at most the incoming limit, excluding the caller's own
orders, in ascending ask-price order with ties broken by ascending
creation time; in particular, with resting asks at 100 (created earlier)
and 95 (created later) on one symbol, an incoming buy at 120 for
quantity 1 executes against the 95 ask. -/
theorem buy_matching_scans_asks_in_price_time_order :
    (∀ (db : DB) (sym : String) (uid : Nat) (limit : Int) (o : Order),
      o ∈ eligibleAsks db sym uid limit ↔
        o ∈ db.orders ∧ o.symbol = sym ∧ o.type = OrderType.sell ∧
        o.status = OrderStatus.open_ ∧ o.user_id ≠ uid ∧ o.price ≤ limit) ∧
    (∀ (db : DB) (sym : String) (uid : Nat) (limit : Int),
      (eligibleAsks db sym uid limit).Sorted askLE) ∧
    tradesAfter (place_order dbC3 1 "X" OrderType.buy 120 1 none) =
      [{ holding_id := some 101, symbol := "X", buyer_id := 1,
         seller_id := 3, price := 95, executed_at := 6 }] := by
  refine ⟨?_, ?_, ?_⟩
  · intro db sym uid limit o
    exact mem_eligibleAsks
  · intro db sym uid limit
    exact List.sorted_insertionSort askLE _
  · decide

/-! ## C5: fills write quantity = 0; the effective CHECK is quantity >= 0 -/

/-- Whether a `place_order` call returned normally. -/
def callOk (r : Except (String × DB) (DB × Nat)) : Bool :=
  match r with
  | Except.ok _ => true
  | Except.error _ => false

/-- **C5 (counterexample).** The claim says every write `place_order`
performs on `orders` satisfies `CHECK (quantity > 0)` — the constraint as
written in `schema.sql`.  That is false: on `dbC3` (one eligible resting
ask), a buy for quantity 1 fully fills, and `place_order` writes
`status = 'filled', quantity = 0` for both the resting ask and the
incoming order, and quantity 0 does not satisfy `quantity > 0`.  The call
still completes without error on the repository's schema, because the
"Fix Order Quantity Constraint" migration replaced that constraint by
`CHECK (quantity >= 0)` exactly to admit such rows. -/
theorem full_fill_writes_quantity_zero :
    callOk (place_order dbC3 1 "X" OrderType.buy 120 1 none) = true ∧
    ¬ ordersQuantityCheckSuperseded
      (ordersAfter (place_order dbC3 1 "X" OrderType.buy 120 1 none)) := by
  constructor
  · decide
  · decide

/-! ## C9: trades, price/volume update, and the price-history trigger -/

/-- State for the C9 counterexample: the cached price of symbol X is
already 95, and the single resting ask is also priced 95. -/
def dbC9 : DB :=
  { profiles := [{ id := 1, cash_balance := 1000, locked_balance := 0 },
                 { id := 3, cash_balance := 0, locked_balance := 0 }],
    holdings := [{ id := 101, user_id := 3, symbol := "X",
                   status := HoldingStatus.listed,
                   acquisition_price := 0, listing_price := some 95 }],
    orders := [{ id := 11, user_id := 3, symbol := "X", type := OrderType.sell,
                 price := 95, quantity := 1, status := OrderStatus.open_,
                 holding_id := some 101, created_at := 2 }],
    trades := [], cards := [{ id := 7, symbol := "X" }],
    prices := [{ card_id := 7, price := 95, volume_24h := 0 }],
    price_history := [], next_id := 20, now := 5 }

/-- **C9 (counterexample).** A trade executed at a price equal to the
symbol's cached last price appends a Trade row but no price-history tick
(`log_price_history` skips unchanged prices), refuting "one tick per
trade, for every trade". -/
theorem trade_at_unchanged_price_appends_no_tick :
    (tradesAfter (place_order dbC9 1 "X" OrderType.buy 120 1 none)).length =
      dbC9.trades.length + 1 ∧
    historyAfter (place_order dbC9 1 "X" OrderType.buy 120 1 none) =
      dbC9.price_history := by
  constructor
  · decide
  · decide

theorem tickPrice_id (tp : Int) (r : PriceRow) :
    PriceRow.card_id (tickPrice tp r) = PriceRow.card_id r := rfl

/-- The tick list produced by the `log_price_history` trigger when the
prices table has a unique row per card: one tick when the price changed,
none when it is unchanged. -/
theorem filterMap_ticks_of_nodup {ps : List PriceRow} {cid : Nat} {pr : PriceRow}
    (tp : Int) (t0 : Nat)
    (hnd : (ps.map PriceRow.card_id).Nodup) (hmem : pr ∈ ps)
    (hkey : pr.card_id = cid) :
    (ps.filterMap fun r =>
      if r.card_id = cid ∧ r.price ≠ tp then
        some { card_id := r.card_id, price := tp, recorded_at := t0 }
      else none) =
    if pr.price ≠ tp then
      [{ card_id := cid, price := tp, recorded_at := t0 }]
    else ([] : List Tick) := by
  induction ps with
  | nil => exact absurd hmem (List.not_mem_nil pr)
  | cons a t ih =>
    simp only [List.map_cons, List.nodup_cons] at hnd
    by_cases ha : a.card_id = cid
    · have hpr : pr = a := by
        rcases List.mem_cons.mp hmem with h | h
        · exact h
        · refine absurd ?_ hnd.1
          rw [ha, ← hkey]
          exact List.mem_map_of_mem _ h
      subst hpr
      have ht : (t.filterMap fun r =>
          if r.card_id = cid ∧ r.price ≠ tp then
            some ({ card_id := r.card_id, price := tp, recorded_at := t0 } : Tick)
          else none) = [] := by
        rw [List.filterMap_eq_nil_iff]
        intro r hr
        rw [if_neg]
        rintro ⟨h1, _⟩
        refine absurd ?_ hnd.1
        rw [ha, ← h1]
        exact List.mem_map_of_mem _ hr
      by_cases hp : pr.price ≠ tp <;>
        simp [List.filterMap_cons, ht, hkey, hp]
    · have hprt : pr ∈ t := by
        rcases List.mem_cons.mp hmem with h | h
        · exact absurd (h ▸ hkey) ha
        · exact h
      simp only [List.filterMap_cons,
        if_neg (show ¬(a.card_id = cid ∧ a.price ≠ tp) from fun hc => ha hc.1)]
      exact ih hnd.2 hprt

/-- Effect of the prices UPDATE when the symbol resolves to a card with a
unique prices row: that row's price is set and its volume incremented. -/
theorem pricesAfterTick_findRow {cards : List Card} {prices : List PriceRow}
    {sym : String} {tp : Int} {c : Card} {pr : PriceRow}
    (hcard : cards.find? (fun x => decide (x.symbol = sym)) = some c)
    (hnd : (prices.map PriceRow.card_id).Nodup)
    (hmem : pr ∈ prices) (hkey : pr.card_id = c.id) :
    findRow PriceRow.card_id c.id (pricesAfterTick cards prices sym tp) =
      some (tickPrice tp pr) := by
  simp only [pricesAfterTick, hcard]
  refine (findRow_updateRow_self (tickPrice_id tp)).trans ?_
  rw [findRow_eq_some_of_nodup hnd hmem hkey]
  rfl

/-- Effect of the history trigger: one tick when the price changed, none
when it is unchanged. -/
theorem historyTicks_eq {cards : List Card} {prices : List PriceRow}
    {sym : String} {tp : Int} {t0 : Nat} {c : Card} {pr : PriceRow}
    (hcard : cards.find? (fun x => decide (x.symbol = sym)) = some c)
    (hnd : (prices.map PriceRow.card_id).Nodup)
    (hmem : pr ∈ prices) (hkey : pr.card_id = c.id) :
    historyTicks cards prices sym tp t0 =
      if pr.price ≠ tp then
        [{ card_id := c.id, price := tp, recorded_at := t0 }]
      else ([] : List Tick) := by
  simp only [historyTicks, hcard]
  exact filterMap_ticks_of_nodup tp t0 hnd hmem hkey

/-- **C9 (amended).** For every matched unit — buy taker (left conjunct)
or sell taker (right conjunct) — exactly one immutable Trade row is
appended at the execution price; provided the symbol has a card and a
cached prices row, that row's last price is set to the execution price
and its volume counter incremented by one; and exactly one price-history
tick is appended if the execution price differs from the previously
cached price, while no tick is appended when the cached price is already
equal (the trigger skips unchanged prices). -/
theorem trade_appends_row_updates_price_and_ticks_iff_changed :
    (∀ (db : DB) (uid : Nat) (sym : String) (p_price rem : Int) (m : Order)
       (hid : Nat) (h : Holding) (c : Card) (pr : PriceRow),
      rem ≠ 0 →
      m.holding_id = some hid →
      findRow Holding.id hid db.holdings = some h →
      h.status = HoldingStatus.listed →
      h.user_id = m.user_id →
      db.cards.find? (fun x => decide (x.symbol = sym)) = some c →
      (db.prices.map PriceRow.card_id).Nodup →
      pr ∈ db.prices →
      pr.card_id = c.id →
      (buyMatchStep uid sym p_price (db, rem) m).1.trades =
        db.trades ++ [{ holding_id := some hid, symbol := sym, buyer_id := uid,
                        seller_id := m.user_id, price := m.price,
                        executed_at := db.now }] ∧
      findRow PriceRow.card_id c.id (buyMatchStep uid sym p_price (db, rem) m).1.prices =
        some (tickPrice m.price pr) ∧
      (buyMatchStep uid sym p_price (db, rem) m).1.price_history =
        db.price_history ++
          (if pr.price ≠ m.price then
            [{ card_id := c.id, price := m.price, recorded_at := db.now }]
          else ([] : List Tick))) ∧
    (∀ (db : DB) (uid : Nat) (sym : String) (rem : Int) (m : Order)
       (phid : Option Nat) (c : Card) (pr : PriceRow),
      rem ≠ 0 →
      db.cards.find? (fun x => decide (x.symbol = sym)) = some c →
      (db.prices.map PriceRow.card_id).Nodup →
      pr ∈ db.prices →
      pr.card_id = c.id →
      (sellMatchStep uid sym phid (db, rem) m).1.trades =
        db.trades ++ [{ holding_id := phid, symbol := sym, buyer_id := m.user_id,
                        seller_id := uid, price := m.price,
                        executed_at := db.now }] ∧
      findRow PriceRow.card_id c.id (sellMatchStep uid sym phid (db, rem) m).1.prices =
        some (tickPrice m.price pr) ∧
      (sellMatchStep uid sym phid (db, rem) m).1.price_history =
        db.price_history ++
          (if pr.price ≠ m.price then
            [{ card_id := c.id, price := m.price, recorded_at := db.now }]
          else ([] : List Tick))) := by
  constructor
  · intro db uid sym p_price rem m hid h c pr
    intro hrem hhid hfind hstat howner hcard hnd hmem hkey
    rw [buyMatchStep_eq_exec hrem hhid hfind hstat howner]
    simp only [execBuyTrade, insertTrade, hhid, updatePricesAndLog]
    exact ⟨by trivial, pricesAfterTick_findRow hcard hnd hmem hkey,
      congrArg (db.price_history ++ ·) (historyTicks_eq hcard hnd hmem hkey)⟩
  · intro db uid sym rem m phid c pr
    intro hrem hcard hnd hmem hkey
    simp only [sellMatchStep, if_neg hrem]
    cases phid <;> by_cases hq : m.quantity > 1 <;>
      first
      | (simp only [if_pos hq, insertTrade, updatePricesAndLog]
         exact ⟨by trivial, pricesAfterTick_findRow hcard hnd hmem hkey,
           congrArg (db.price_history ++ ·) (historyTicks_eq hcard hnd hmem hkey)⟩)
      | (simp only [if_neg hq, insertTrade, updatePricesAndLog]
         exact ⟨by trivial, pricesAfterTick_findRow hcard hnd hmem hkey,
           congrArg (db.price_history ++ ·) (historyTicks_eq hcard hnd hmem hkey)⟩)

/-- Card row for the C9 witness. -/
def cW9 : Card := { id := 7, symbol := "X" }

/-- Cached prices row for the C9 witness: last price 90, distinct from
the 95 execution price, so a tick is due. -/
def prW9 : PriceRow := { card_id := 7, price := 90, volume_24h := 3 }

/-- State for the C9 witness. -/
def dbW9 : DB :=
  { profiles := [], holdings := [hW1], orders := [mW1], trades := [],
    cards := [cW9], prices := [prW9], price_history := [],
    next_id := 20, now := 5 }

/-- Witness for the amended C9: a concrete trade at 95 with cached price
90 appends one Trade row, sets the cached price, increments the volume,
and appends one tick. -/
theorem trade_appends_row_updates_price_and_ticks_witness :
    (buyMatchStep 1 "X" 120 (dbW9, 1) mW1).1.trades =
      dbW9.trades ++ [{ holding_id := some 101, symbol := "X", buyer_id := 1,
                        seller_id := mW1.user_id, price := mW1.price,
                        executed_at := dbW9.now }] ∧
    findRow PriceRow.card_id cW9.id (buyMatchStep 1 "X" 120 (dbW9, 1) mW1).1.prices =
      some (tickPrice mW1.price prW9) ∧
    (buyMatchStep 1 "X" 120 (dbW9, 1) mW1).1.price_history =
      dbW9.price_history ++
        (if prW9.price ≠ mW1.price then
          [{ card_id := cW9.id, price := mW1.price, recorded_at := dbW9.now }]
        else ([] : List Tick)) := by
  obtain ⟨hb, _⟩ := trade_appends_row_updates_price_and_ticks_iff_changed
  exact hb dbW9 1 "X" 120 1 mW1 101 hW1 cW9 prW9 (by decide) rfl (by decide)
    rfl rfl (by decide) (by decide) (by decide) rfl

/-! ## C6: cancel_order effects -/

/-- **C6.** `cancel_order` on an open order owned by the caller marks
exactly that order `cancelled` and: for a buy, moves exactly
`limit_price × remaining_quantity` from the caller's locked cash to
available cash (`refundCancelBuy`); for a sell, reverts the bound holding
to `tradable` with its listing price cleared (`unlistHolding`).  The
returned state differs from the input state in exactly that one `orders`
row and that one `profiles`/`vault_holdings` row — trades, prices and
price history are untouched and no matching is attempted. -/
theorem cancel_order_effects :
    ∀ (db : DB) (oid uid : Nat) (o : Order),
    o ∈ db.orders →
    (db.orders.map Order.id).Nodup →
    o.id = oid →
    o.user_id = uid →
    o.status = OrderStatus.open_ →
    (o.type = OrderType.buy →
      cancel_order db oid uid = Except.ok
        ({ db with
            orders := updateRow Order.id oid cancelOrderRow db.orders,
            profiles := updateRow Profile.id uid
              (refundCancelBuy (o.price * o.quantity)) db.profiles }, true)) ∧
    (∀ hid, o.type = OrderType.sell → o.holding_id = some hid →
      cancel_order db oid uid = Except.ok
        ({ db with
            orders := updateRow Order.id oid cancelOrderRow db.orders,
            holdings := updateRow Holding.id hid unlistHolding db.holdings }, true)) := by
  intro db oid uid o hmem hnd hoid huser hstat
  have hfind : db.orders.find? (fun x => decide (x.id = oid ∧
      x.user_id = uid ∧ x.status = OrderStatus.open_)) = some o := by
    refine find?_eq_some_unique hmem (by simp [hoid, huser, hstat]) ?_
    intro y hy hp
    simp only [decide_eq_true_eq] at hp
    exact List.inj_on_of_nodup_map hnd hy hmem (by rw [hp.1, hoid])
  constructor
  · intro hbuy
    unfold cancel_order
    rw [hfind]
    simp [hbuy]
  · intro hid hsell hhid
    unfold cancel_order
    rw [hfind]
    have : o.type ≠ OrderType.buy := by rw [hsell]; intro hc; cases hc
    simp [this, hhid]

/-- An open buy order of user 8: remaining quantity 2 at limit 100. -/
def oW6 : Order :=
  { id := 40, user_id := 8, symbol := "X", type := OrderType.buy, price := 100,
    quantity := 2, status := OrderStatus.open_, holding_id := none,
    created_at := 4 }

/-- An open sell order of user 9 bound to holding 300. -/
def sW6 : Order :=
  { id := 41, user_id := 9, symbol := "X", type := OrderType.sell, price := 70,
    quantity := 1, status := OrderStatus.open_, holding_id := some 300,
    created_at := 5 }

/-- State for the C6 witness. -/
def dbW6 : DB :=
  { profiles := [{ id := 8, cash_balance := 55, locked_balance := 200 }],
    holdings := [{ id := 300, user_id := 9, symbol := "X",
                   status := HoldingStatus.listed,
                   acquisition_price := 0, listing_price := some 70 }],
    orders := [oW6, sW6], trades := [], cards := [], prices := [],
    price_history := [], next_id := 50, now := 9 }

/-- Witness for C6: cancelling the buy order with remaining quantity 2 at
limit 100 refunds exactly 200 from locked to available cash (55 → 255,
200 → 0); cancelling the sell order reverts holding 300 to `tradable`. -/
theorem cancel_order_effects_witness :
    cancel_order dbW6 40 8 = Except.ok
      ({ dbW6 with
          orders := updateRow Order.id 40 cancelOrderRow dbW6.orders,
          profiles := updateRow Profile.id 8
            (refundCancelBuy (oW6.price * oW6.quantity)) dbW6.profiles }, true) ∧
    cancel_order dbW6 41 9 = Except.ok
      ({ dbW6 with
          orders := updateRow Order.id 41 cancelOrderRow dbW6.orders,
          holdings := updateRow Holding.id 300 unlistHolding dbW6.holdings }, true) ∧
    (updateRow Profile.id 8 (refundCancelBuy (oW6.price * oW6.quantity)) dbW6.profiles) =
      [{ id := 8, cash_balance := 255, locked_balance := 0 }] := by
  refine ⟨?_, ?_, by decide⟩
  · exact (cancel_order_effects dbW6 40 8 oW6 (by decide) (by decide)
      rfl rfl rfl).1 rfl
  · exact (cancel_order_effects dbW6 41 9 sW6 (by decide) (by decide)
      rfl rfl rfl).2 300 rfl rfl

/-! ## C4: finalization of the incoming order -/

theorem execBuyTrade_orders (uid : Nat) (sym : String) (price : Int)
    (db : DB) (rem : Int) (m : Order) :
    (execBuyTrade uid sym price db rem m).1.orders =
      updateRow Order.id m.id fillOrder db.orders := by
  unfold execBuyTrade
  cases m.holding_id <;> rfl

/-- The buy loop body touches the orders table only at the candidate's id. -/
theorem buyMatchStep_findRow_orders_ne {uid : Nat} {sym : String}
    {price : Int} {db : DB} {rem : Int} {m : Order} {oid : Nat}
    (hne : oid ≠ m.id) :
    findRow Order.id oid (buyMatchStep uid sym price (db, rem) m).1.orders =
      findRow Order.id oid db.orders := by
  simp only [buyMatchStep]
  by_cases hrem : rem = 0
  · rw [if_pos hrem]
  · rw [if_neg hrem]
    cases hb : m.holding_id.bind (fun hid => findRow Holding.id hid db.holdings) with
    | none =>
      rw [execBuyTrade_orders]
      exact findRow_updateRow_ne fillOrder_id hne
    | some h =>
      dsimp only
      by_cases hg : h.status ≠ HoldingStatus.listed ∨ h.user_id ≠ m.user_id
      · rw [if_pos hg]
        exact findRow_updateRow_ne cancelOrderRow_id hne
      · rw [if_neg hg, execBuyTrade_orders]
        exact findRow_updateRow_ne fillOrder_id hne

/-- The whole buy matching loop leaves rows with other ids untouched. -/
theorem foldl_buyMatchStep_findRow_ne (uid : Nat) (sym : String)
    (price : Int) {oid : Nat} (cands : List Order) (s : DB × Int)
    (hne : ∀ m ∈ cands, oid ≠ m.id) :
    findRow Order.id oid ((cands.foldl (buyMatchStep uid sym price) s).1).orders =
      findRow Order.id oid s.1.orders := by
  induction cands generalizing s with
  | nil => rfl
  | cons a t ih =>
    rw [List.foldl_cons, ih _ (fun m hm => hne m (List.mem_cons_of_mem a hm))]
    obtain ⟨db, rem⟩ := s
    exact buyMatchStep_findRow_orders_ne (hne a (List.mem_cons_self a t))

theorem findRow_append_fresh {l : List α} {y : α}
    (hl : ∀ x ∈ l, key x ≠ k) (hy : key y = k) :
    findRow key k (l ++ [y]) = some y := by
  induction l with
  | nil =>
    simp only [List.nil_append, findRow]
    exact List.find?_cons_of_pos _ (by simpa using hy)
  | cons a t ih =>
    simp only [List.cons_append, findRow] at ih ⊢
    rw [List.find?_cons_of_neg]
    · exact ih fun x hx => hl x (List.mem_cons_of_mem a hx)
    · simpa using hl a (List.mem_cons_self a t)

/-- State for the C4 partial-fill example: three eligible resting asks
(at 90, 95 and 100) against an incoming buy for quantity 5 at limit 100. -/
def dbC4 : DB :=
  { profiles := [{ id := 1, cash_balance := 1000, locked_balance := 0 },
                 { id := 2, cash_balance := 0, locked_balance := 0 },
                 { id := 3, cash_balance := 0, locked_balance := 0 },
                 { id := 4, cash_balance := 0, locked_balance := 0 }],
    holdings := [{ id := 100, user_id := 2, symbol := "X",
                   status := HoldingStatus.listed,
                   acquisition_price := 0, listing_price := some 90 },
                 { id := 101, user_id := 3, symbol := "X",
                   status := HoldingStatus.listed,
                   acquisition_price := 0, listing_price := some 95 },
                 { id := 102, user_id := 4, symbol := "X",
                   status := HoldingStatus.listed,
                   acquisition_price := 0, listing_price := some 100 }],
    orders := [{ id := 10, user_id := 2, symbol := "X", type := OrderType.sell,
                 price := 90, quantity := 1, status := OrderStatus.open_,
                 holding_id := some 100, created_at := 1 },
               { id := 11, user_id := 3, symbol := "X", type := OrderType.sell,
                 price := 95, quantity := 1, status := OrderStatus.open_,
                 holding_id := some 101, created_at := 2 },
               { id := 12, user_id := 4, symbol := "X", type := OrderType.sell,
                 price := 100, quantity := 1, status := OrderStatus.open_,
                 holding_id := some 102, created_at := 3 }],
    trades := [], cards := [], prices := [], price_history := [],
    next_id := 20, now := 5 }

/-- **C4.** After `place_order`'s buy matching loop exits with remaining
quantity `rem`, the incoming order is persisted as `filled` when
`rem = 0`, still `open` with quantity `rem` when partially filled, and
unchanged when nothing matched; concretely, a buy of quantity 5 matched
against exactly 3 eligible resting asks ends `open` with quantity 2. -/
theorem finalization_persists_incoming_order_state :
    (∀ (db : DB) (uid : Nat) (sym : String) (price qty : Int) (prof : Profile),
      (∀ o ∈ db.orders, o.id ≠ db.next_id) →
      findRow Profile.id uid db.profiles = some prof →
      ¬ prof.cash_balance < price * qty →
      ∀ rem, rem = (buyLoop (buyInsert db uid sym price qty) uid sym price qty).2 →
      (rem = 0 →
        findRow Order.id db.next_id
            (ordersAfter (place_order db uid sym OrderType.buy price qty none)) =
          some (fillOrder (newBuyOrder db uid sym price qty))) ∧
      (rem ≠ 0 → rem < qty →
        findRow Order.id db.next_id
            (ordersAfter (place_order db uid sym OrderType.buy price qty none)) =
          some (setQuantity rem (newBuyOrder db uid sym price qty))) ∧
      (rem = qty → qty ≠ 0 →
        findRow Order.id db.next_id
            (ordersAfter (place_order db uid sym OrderType.buy price qty none)) =
          some (newBuyOrder db uid sym price qty))) ∧
    findRow Order.id 20 (ordersAfter (place_order dbC4 1 "X" OrderType.buy 100 5 none)) =
      some { id := 20, user_id := 1, symbol := "X", type := OrderType.buy,
             price := 100, quantity := 2, status := OrderStatus.open_,
             holding_id := none, created_at := 5 } := by
  constructor
  · intro db uid sym price qty prof hfresh hprof hno rem hrem
    subst hrem
    have hcall : place_order db uid sym OrderType.buy price qty none =
        Except.ok (finalizeOrder
          (buyLoop (buyInsert db uid sym price qty) uid sym price qty).1
          db.next_id
          (buyLoop (buyInsert db uid sym price qty) uid sym price qty).2 qty,
          db.next_id) := by
      simp [place_order, hprof, hno, buyLoop]
    have hcands : ∀ m ∈ eligibleAsks (buyInsert db uid sym price qty) sym uid price,
        db.next_id ≠ m.id := by
      intro m hm
      have h1 := mem_eligibleAsks.mp hm
      have hmem2 : m ∈ db.orders ++ [newBuyOrder db uid sym price qty] := h1.1
      rcases List.mem_append.mp hmem2 with hmem | hmem
      · exact fun he => hfresh m hmem he.symm
      · have hm2 : m = newBuyOrder db uid sym price qty := List.mem_singleton.mp hmem
        subst hm2
        have := h1.2.2.1
        simp [newBuyOrder] at this
    have hnew : findRow Order.id db.next_id (buyInsert db uid sym price qty).orders =
        some (newBuyOrder db uid sym price qty) :=
      findRow_append_fresh hfresh rfl
    have hloop : findRow Order.id db.next_id
        (buyLoop (buyInsert db uid sym price qty) uid sym price qty).1.orders =
        some (newBuyOrder db uid sym price qty) := by
      have := foldl_buyMatchStep_findRow_ne uid sym price
        (eligibleAsks (buyInsert db uid sym price qty) sym uid price)
        (buyInsert db uid sym price qty, qty) hcands
      exact (this.trans hnew)
    refine ⟨?_, ?_, ?_⟩
    · intro h0
      rw [hcall]
      simp only [ordersAfter, finalizeOrder, if_pos h0]
      exact (findRow_updateRow_self fillOrder_id).trans (by rw [hloop]; rfl)
    · intro hne0 hlt
      rw [hcall]
      simp only [ordersAfter, finalizeOrder, if_neg hne0, if_pos hlt]
      exact (findRow_updateRow_self (setQuantity_id _)).trans (by rw [hloop]; rfl)
    · intro h0 hq
      rw [hcall]
      simp only [ordersAfter, finalizeOrder,
        if_neg (show ¬(buyLoop (buyInsert db uid sym price qty) uid sym price qty).2 = 0
          by omega),
        if_neg (show ¬(buyLoop (buyInsert db uid sym price qty) uid sym price qty).2 < qty
          by omega)]
      exact hloop
  · decide

/-- Witness for C4: on `dbC4` the loop exits with remaining quantity 2
and the incoming order is persisted open with quantity 2. -/
theorem finalization_persists_incoming_order_state_witness :
    findRow Order.id dbC4.next_id
        (ordersAfter (place_order dbC4 1 "X" OrderType.buy 100 5 none)) =
      some (setQuantity 2 (newBuyOrder dbC4 1 "X" 100 5)) := by
  obtain ⟨hgen, _⟩ := finalization_persists_incoming_order_state
  exact (hgen dbC4 1 "X" 100 5
    { id := 1, cash_balance := 1000, locked_balance := 0 }
    (by decide) (by decide) (by decide) 2 (by decide)).2.1 (by decide) (by decide)

/-! ## C8: at most one open sell order per holding -/

/-- `o` is an open sell order bound to holding `hid`. -/
def openSellOn (hid : Nat) (o : Order) : Prop :=
  o.status = OrderStatus.open_ ∧ o.type = OrderType.sell ∧ o.holding_id = some hid

instance (hid : Nat) : DecidablePred (openSellOn hid) := fun _ =>
  inferInstanceAs (Decidable (_ ∧ _))

/-- The C8 property: every holding is referenced by at most one open sell
order. -/
def AtMostOneOpenSell (db : DB) : Prop :=
  ∀ hid : Nat, db.orders.countP (fun o => decide (openSellOn hid o)) ≤ 1

/-- The inductive invariant of the order book.  `boundListed` says every
open sell order is bound to an existing `listed` holding; `uniqueSell` is
the C8 property itself; the rest are primary-key facts. -/
structure Inv (db : DB) : Prop where
  ordersNodup : (db.orders.map Order.id).Nodup
  holdingsNodup : (db.holdings.map Holding.id).Nodup
  idsFresh : ∀ o ∈ db.orders, o.id < db.next_id
  boundListed : ∀ o ∈ db.orders, o.status = OrderStatus.open_ →
    o.type = OrderType.sell →
    ∃ hid, o.holding_id = some hid ∧
      ∃ h, findRow Holding.id hid db.holdings = some h ∧
        h.status = HoldingStatus.listed
  uniqueSell : AtMostOneOpenSell db

theorem mem_updateRow_iff {g : α → α} {x' : α} :
    x' ∈ updateRow key k g l ↔
      ∃ x ∈ l, x' = (if key x = k then g x else x) := by
  simp only [updateRow, List.mem_map]
  constructor
  · rintro ⟨x, hx, rfl⟩
    exact ⟨x, hx, rfl⟩
  · rintro ⟨x, hx, rfl⟩
    exact ⟨x, hx, rfl⟩

theorem countP_updateRow_le {g : α → α} {p : α → Bool}
    (hg : ∀ x, p (g x) = true → p x = true) :
    (updateRow key k g l).countP p ≤ l.countP p := by
  unfold updateRow
  rw [List.countP_map]
  refine List.countP_mono_left ?_
  intro x _ hx
  by_cases hk : key x = k
  · simp only [Function.comp_apply, if_pos hk] at hx
    exact hg x hx
  · simpa only [Function.comp_apply, if_neg hk] using hx

theorem two_le_countP {p : α → Bool} {x y : α}
    (hx : x ∈ l) (hy : y ∈ l) (hne : x ≠ y)
    (hpx : p x = true) (hpy : p y = true) :
    2 ≤ l.countP p := by
  induction l with
  | nil => exact absurd hx (List.not_mem_nil x)
  | cons a t ih =>
    rw [List.countP_cons]
    rcases List.mem_cons.mp hx with rfl | hxt
    · have hyt : y ∈ t := by
        rcases List.mem_cons.mp hy with rfl | h
        · exact absurd rfl hne
        · exact h
      have h1 : 0 < t.countP p := List.countP_pos_iff.mpr ⟨y, hyt, hpy⟩
      rw [if_pos hpx]
      omega
    · rcases List.mem_cons.mp hy with rfl | hyt
      · have h1 : 0 < t.countP p := List.countP_pos_iff.mpr ⟨x, hxt, hpx⟩
        rw [if_pos hpy]
        omega
      · have := ih hxt hyt
        omega

/-- The candidate snapshot inherits distinct ids from the orders table. -/
theorem nodup_ids_eligibleAsks {db : DB} {sym : String} {uid : Nat} {limit : Int}
    (hnd : (db.orders.map Order.id).Nodup) :
    ((eligibleAsks db sym uid limit).map Order.id).Nodup := by
  have hperm : (eligibleAsks db sym uid limit).Perm
      (db.orders.filter fun o =>
        decide (o.symbol = sym ∧ o.type = OrderType.sell ∧
          o.status = OrderStatus.open_ ∧ o.user_id ≠ uid ∧ o.price ≤ limit)) :=
    List.perm_insertionSort askLE _
  refine ((hperm.map Order.id).nodup_iff).mpr ?_
  exact ((List.filter_sublist db.orders).map Order.id).nodup hnd

/-- `Inv` depends only on the orders, holdings and next-id components. -/
theorem inv_of_fields (db2 : DB) {db1 : DB} (h1 : db1.orders = db2.orders)
    (h2 : db1.holdings = db2.holdings) (h3 : db1.next_id = db2.next_id)
    (hinv : Inv db2) : Inv db1 := by
  refine ⟨?_, ?_, ?_, ?_, ?_⟩
  · rw [h1]; exact hinv.ordersNodup
  · rw [h2]; exact hinv.holdingsNodup
  · rw [h1, h3]; exact hinv.idsFresh
  · rw [h1, h2]; exact hinv.boundListed
  · intro hid; rw [h1]; exact hinv.uniqueSell hid

/-- An orders-table UPDATE whose SET clause keeps ids, never turns a row
into a new open sell, and keeps the binding of rows that stay open sells,
preserves the invariant. -/
theorem inv_updateRow_orders {db : DB} {k : Nat} {g : Order → Order}
    (hinv : Inv db)
    (hgid : ∀ o, Order.id (g o) = Order.id o)
    (hgbound : ∀ o, (g o).status = OrderStatus.open_ →
      (g o).type = OrderType.sell →
      (g o).holding_id = o.holding_id ∧ o.status = OrderStatus.open_ ∧
        o.type = OrderType.sell) :
    Inv { db with orders := updateRow Order.id k g db.orders } := by
  have hdamp : ∀ (hid : Nat) o, openSellOn hid (g o) → openSellOn hid o := by
    intro hid o hos
    obtain ⟨hh, hs, ht⟩ := hgbound o hos.1 hos.2.1
    exact ⟨hs, ht, hh ▸ hos.2.2⟩
  refine ⟨?_, ?_, ?_, ?_, ?_⟩
  · show (List.map Order.id (updateRow Order.id k g db.orders)).Nodup
    rw [map_key_updateRow hgid]
    exact hinv.ordersNodup
  · exact hinv.holdingsNodup
  · intro o' ho'
    rcases mem_updateRow_iff.mp ho' with ⟨x, hx, rfl⟩
    have hide : (if Order.id x = k then g x else x).id = x.id := by
      by_cases hk : Order.id x = k
      · rw [if_pos hk]; exact hgid x
      · rw [if_neg hk]
    rw [hide]
    exact hinv.idsFresh x hx
  · intro o' ho' hop hty
    rcases mem_updateRow_iff.mp ho' with ⟨x, hx, rfl⟩
    by_cases hk : Order.id x = k
    · rw [if_pos hk] at hop hty ⊢
      obtain ⟨hh, hs, ht⟩ := hgbound x hop hty
      obtain ⟨hid, hhid, h, hfind, hlst⟩ := hinv.boundListed x hx hs ht
      exact ⟨hid, hh ▸ hhid, h, hfind, hlst⟩
    · rw [if_neg hk] at hop hty ⊢
      exact hinv.boundListed x hx hop hty
  · intro hid
    show (updateRow Order.id k g db.orders).countP _ ≤ 1
    refine le_trans (countP_updateRow_le ?_) (hinv.uniqueSell hid)
    intro x hx
    rw [decide_eq_true_eq] at hx ⊢
    exact hdamp hid x hx

/-- A holdings-table UPDATE at a holding referenced by no open sell order
preserves the invariant (the SET clause keeps the id). -/
theorem inv_updateHolding_unreferenced {db : DB} {hid' : Nat}
    {g : Holding → Holding}
    (hinv : Inv db)
    (hgid : ∀ h, Holding.id (g h) = Holding.id h)
    (hno : ∀ o ∈ db.orders, ¬ openSellOn hid' o) :
    Inv { db with holdings := updateRow Holding.id hid' g db.holdings } := by
  refine ⟨hinv.ordersNodup, ?_, hinv.idsFresh, ?_, hinv.uniqueSell⟩
  · show (List.map Holding.id (updateRow Holding.id hid' g db.holdings)).Nodup
    rw [map_key_updateRow hgid]
    exact hinv.holdingsNodup
  · intro o ho hop hty
    obtain ⟨hid, hhid, h, hfind, hlst⟩ := hinv.boundListed o ho hop hty
    have hne : hid ≠ hid' := by
      intro he
      exact hno o ho ⟨hop, hty, he ▸ hhid⟩
    exact ⟨hid, hhid, h, (findRow_updateRow_ne hgid hne).trans hfind, hlst⟩

theorem execBuyTrade_holdings (uid : Nat) (sym : String) (price : Int)
    (db : DB) (rem : Int) (m : Order) :
    (execBuyTrade uid sym price db rem m).1.holdings =
      (match m.holding_id with
       | some hid => updateRow Holding.id hid (transferHolding uid m.price) db.holdings
       | none => db.holdings) := by
  unfold execBuyTrade
  cases m.holding_id <;> rfl

theorem execBuyTrade_next_id (uid : Nat) (sym : String) (price : Int)
    (db : DB) (rem : Int) (m : Order) :
    (execBuyTrade uid sym price db rem m).1.next_id = db.next_id := by
  unfold execBuyTrade
  cases m.holding_id <;> rfl

/-- The three possible shapes of one buy-loop iteration: no-op, stale
candidate cancelled, or trade executed (candidate filled and its holding
transferred). -/
theorem buyMatchStep_cases (uid : Nat) (sym : String) (price : Int)
    (db : DB) (rem : Int) (m : Order) :
    (buyMatchStep uid sym price (db, rem) m).1 = db ∨
    ((buyMatchStep uid sym price (db, rem) m).1.orders =
        updateRow Order.id m.id cancelOrderRow db.orders ∧
      (buyMatchStep uid sym price (db, rem) m).1.holdings = db.holdings ∧
      (buyMatchStep uid sym price (db, rem) m).1.next_id = db.next_id) ∨
    ((buyMatchStep uid sym price (db, rem) m).1.orders =
        updateRow Order.id m.id fillOrder db.orders ∧
      (buyMatchStep uid sym price (db, rem) m).1.holdings =
        (match m.holding_id with
         | some hid => updateRow Holding.id hid (transferHolding uid m.price) db.holdings
         | none => db.holdings) ∧
      (buyMatchStep uid sym price (db, rem) m).1.next_id = db.next_id) := by
  simp only [buyMatchStep]
  by_cases hrem : rem = 0
  · rw [if_pos hrem]
    exact Or.inl rfl
  · rw [if_neg hrem]
    cases hb : m.holding_id.bind (fun hid => findRow Holding.id hid db.holdings) with
    | none =>
      exact Or.inr (Or.inr ⟨execBuyTrade_orders uid sym price db rem m,
        execBuyTrade_holdings uid sym price db rem m,
        execBuyTrade_next_id uid sym price db rem m⟩)
    | some h =>
      dsimp only
      by_cases hg : h.status ≠ HoldingStatus.listed ∨ h.user_id ≠ m.user_id
      · rw [if_pos hg]
        exact Or.inr (Or.inl ⟨rfl, rfl, rfl⟩)
      · rw [if_neg hg]
        exact Or.inr (Or.inr ⟨execBuyTrade_orders uid sym price db rem m,
          execBuyTrade_holdings uid sym price db rem m,
          execBuyTrade_next_id uid sym price db rem m⟩)

/-- One buy-loop iteration preserves the invariant and leaves rows with
other ids in the orders table. -/
theorem buyMatchStep_preserves_inv (uid : Nat) (sym : String) (price : Int)
    (rem : Int) {db : DB} {m : Order}
    (hinv : Inv db) (hmem : m ∈ db.orders)
    (hopen : m.status = OrderStatus.open_) (hsell : m.type = OrderType.sell) :
    Inv (buyMatchStep uid sym price (db, rem) m).1 ∧
    (∀ x ∈ db.orders, x.id ≠ m.id →
      x ∈ (buyMatchStep uid sym price (db, rem) m).1.orders) := by
  rcases buyMatchStep_cases uid sym price db rem m with hceq | ⟨ho, hh, hn⟩ | ⟨ho, hh, hn⟩
  · rw [hceq]
    exact ⟨hinv, fun x hx _ => hx⟩
  · constructor
    · exact inv_of_fields
        { db with orders := updateRow Order.id m.id cancelOrderRow db.orders }
        ho hh hn
        (inv_updateRow_orders hinv cancelOrderRow_id
          (fun o hop _ => by simp [cancelOrderRow] at hop))
    · intro x hx hne
      rw [ho]
      exact mem_updateRow_of_ne hx hne
  · cases hhid : m.holding_id with
    | none =>
      obtain ⟨hid0, hhid0, _⟩ := hinv.boundListed m hmem hopen hsell
      rw [hhid] at hhid0
      simp at hhid0
    | some hid' =>
      rw [hhid] at hh
      constructor
      · have hOrders : Inv { db with orders := updateRow Order.id m.id fillOrder db.orders } :=
          inv_updateRow_orders hinv fillOrder_id
            (fun o hop _ => by simp [fillOrder] at hop)
        have hno : ∀ o ∈ updateRow Order.id m.id fillOrder db.orders,
            ¬ openSellOn hid' o := by
          intro o ho' hos
          rcases mem_updateRow_iff.mp ho' with ⟨x, hx, rfl⟩
          by_cases hk : Order.id x = m.id
          · rw [if_pos hk] at hos
            exact absurd hos.1 (by simp [fillOrder])
          · rw [if_neg hk] at hos
            have hxm : x ≠ m := fun he => hk (congrArg Order.id he)
            have h2 := two_le_countP (l := db.orders)
              (p := fun o => decide (openSellOn hid' o)) hx hmem hxm
              (decide_eq_true hos)
              (decide_eq_true ⟨hopen, hsell, hhid⟩)
            have h1 := hinv.uniqueSell hid'
            omega
        have hBoth := inv_updateHolding_unreferenced hOrders
          (transferHolding_id uid m.price) hno
        exact inv_of_fields
          { db with
            orders := updateRow Order.id m.id fillOrder db.orders,
            holdings := updateRow Holding.id hid'
              (transferHolding uid m.price) db.holdings }
          ho hh hn hBoth
      · intro x hx hne
        rw [ho]
        exact mem_updateRow_of_ne hx hne

/-- The whole buy matching loop preserves the invariant, given that the
candidates were open sell rows of the loop's starting state. -/
theorem foldl_buyMatchStep_preserves_inv (uid : Nat) (sym : String) (price : Int) :
    ∀ (cands : List Order) (s : DB × Int),
    (cands.map Order.id).Nodup →
    (∀ m ∈ cands, m ∈ s.1.orders ∧ m.status = OrderStatus.open_ ∧
      m.type = OrderType.sell) →
    Inv s.1 →
    Inv ((cands.foldl (buyMatchStep uid sym price) s).1) := by
  intro cands
  induction cands with
  | nil => intro s _ _ h; exact h
  | cons a t ih =>
    intro s hnd hprops hinv
    rw [List.foldl_cons]
    obtain ⟨hmem, hopen, hsell⟩ := hprops a (List.mem_cons_self a t)
    obtain ⟨hinv', hframe⟩ :=
      buyMatchStep_preserves_inv uid sym price s.2 hinv hmem hopen hsell
    simp only [List.map_cons, List.nodup_cons] at hnd
    refine ih (buyMatchStep uid sym price s a) hnd.2 ?_ ?_
    · intro m hm
      obtain ⟨hm1, hm2, hm3⟩ := hprops m (List.mem_cons_of_mem a hm)
      have hmne : m.id ≠ a.id := fun he => hnd.1 (he ▸ List.mem_map_of_mem Order.id hm)
      exact ⟨hframe m hm1 hmne, hm2, hm3⟩
    · exact hinv'

/-- Appending the new buy order after locking funds preserves the
invariant (the new row carries a fresh id and is not a sell). -/
theorem buyInsert_preserves_inv {db : DB} {uid : Nat} {sym : String}
    {price qty : Int} (hinv : Inv db) :
    Inv (buyInsert db uid sym price qty) := by
  refine ⟨?_, ?_, ?_, ?_, ?_⟩
  · show ((db.orders ++ [newBuyOrder db uid sym price qty]).map Order.id).Nodup
    rw [List.map_append, List.nodup_append]
    refine ⟨hinv.ordersNodup, List.nodup_singleton _, ?_⟩
    intro a ha hb
    simp only [List.map_cons, List.map_nil, List.mem_singleton] at hb
    rcases List.mem_map.mp ha with ⟨o, ho, rfl⟩
    have := hinv.idsFresh o ho
    simp only [newBuyOrder] at hb
    omega
  · exact hinv.holdingsNodup
  · intro o ho
    show o.id < db.next_id + 1
    rcases List.mem_append.mp ho with hor | hor
    · have := hinv.idsFresh o hor
      omega
    · rw [List.mem_singleton] at hor
      subst hor
      show db.next_id < db.next_id + 1
      omega
  · intro o ho hop hty
    rcases List.mem_append.mp ho with hor | hor
    · exact hinv.boundListed o hor hop hty
    · rw [List.mem_singleton] at hor
      subst hor
      simp [newBuyOrder] at hty
  · intro hid
    show ((db.orders ++ [newBuyOrder db uid sym price qty]).countP fun o =>
      decide (openSellOn hid o)) ≤ 1
    rw [List.countP_append]
    have hz : (([newBuyOrder db uid sym price qty]).countP fun o =>
        decide (openSellOn hid o)) = 0 := by
      simp [List.countP_cons, openSellOn, newBuyOrder]
    rw [hz]
    have := hinv.uniqueSell hid
    omega

/-- Finalization preserves the invariant. -/
theorem finalizeOrder_preserves_inv {db : DB} {oid : Nat} {rem qty : Int}
    (hinv : Inv db) : Inv (finalizeOrder db oid rem qty) := by
  unfold finalizeOrder
  by_cases h0 : rem = 0
  · rw [if_pos h0]
    exact inv_updateRow_orders hinv fillOrder_id
      (fun o hop _ => by simp [fillOrder] at hop)
  · rw [if_neg h0]
    by_cases hlt : rem < qty
    · rw [if_pos hlt]
      exact inv_updateRow_orders hinv (setQuantity_id rem)
        (fun o hop hty => ⟨rfl, hop, hty⟩)
    · rw [if_neg hlt]
      exact hinv

/-- A successful buy call preserves the invariant. -/
theorem place_order_buy_preserves_inv {db : DB} {uid : Nat} {sym : String}
    {price qty : Int} {db' : DB} {oid : Nat}
    (hinv : Inv db)
    (hok : place_order db uid sym OrderType.buy price qty none =
      Except.ok (db', oid)) :
    Inv db' := by
  have hred : place_order db uid sym OrderType.buy price qty none =
      (if (match findRow Profile.id uid db.profiles with
           | some prof => decide (¬prof.cash_balance < price * qty)
           | none => true) = true
       then Except.ok (finalizeOrder
          (buyLoop (buyInsert db uid sym price qty) uid sym price qty).1
          db.next_id
          (buyLoop (buyInsert db uid sym price qty) uid sym price qty).2 qty,
          db.next_id)
       else Except.error ("Insufficient funds", db)) := by
    simp [place_order, buyLoop]
  rw [hred] at hok
  by_cases hc : (match findRow Profile.id uid db.profiles with
      | some prof => decide (¬prof.cash_balance < price * qty)
      | none => true) = true
  · rw [if_pos hc] at hok
    simp only [Except.ok.injEq, Prod.mk.injEq] at hok
    obtain ⟨h1, _⟩ := hok
    subst h1
    refine finalizeOrder_preserves_inv ?_
    have hinv2 : Inv (buyInsert db uid sym price qty) := buyInsert_preserves_inv hinv
    refine foldl_buyMatchStep_preserves_inv uid sym price
      (eligibleAsks (buyInsert db uid sym price qty) sym uid price)
      (buyInsert db uid sym price qty, qty)
      (nodup_ids_eligibleAsks hinv2.ordersNodup) ?_ hinv2
    intro m hm
    have h := mem_eligibleAsks.mp hm
    exact ⟨h.1, h.2.2.2.1, h.2.2.1⟩
  · rw [if_neg hc] at hok
    simp at hok

/-- A successful cancel call preserves the invariant. -/
theorem cancel_order_preserves_inv {db : DB} {oid uid : Nat} {db' : DB} {b : Bool}
    (hinv : Inv db)
    (hok : cancel_order db oid uid = Except.ok (db', b)) :
    Inv db' := by
  unfold cancel_order at hok
  cases hfind : db.orders.find? (fun o => decide (o.id = oid ∧
      o.user_id = uid ∧ o.status = OrderStatus.open_)) with
  | none =>
    rw [hfind] at hok
    simp at hok
  | some v =>
    rw [hfind] at hok
    have hvmem : v ∈ db.orders := List.mem_of_find?_eq_some hfind
    have hvprops := List.find?_some hfind
    rw [decide_eq_true_eq] at hvprops
    obtain ⟨hvid, hvuser, hvopen⟩ := hvprops
    simp only [Except.ok.injEq, Prod.mk.injEq] at hok
    obtain ⟨h1, _⟩ := hok
    subst h1
    have hOrders : Inv { db with orders := updateRow Order.id oid cancelOrderRow db.orders } :=
      inv_updateRow_orders hinv cancelOrderRow_id
        (fun o hop _ => by simp [cancelOrderRow] at hop)
    by_cases hb : v.type = OrderType.buy
    · rw [if_pos hb]
      exact inv_of_fields
        { db with orders := updateRow Order.id oid cancelOrderRow db.orders }
        rfl rfl rfl hOrders
    · rw [if_neg hb]
      have hvsell : v.type = OrderType.sell := by
        cases hv : v.type
        · exact absurd hv hb
        · rfl
      cases hhid : v.holding_id with
      | none => exact hOrders
      | some hidv =>
        have hno : ∀ o ∈ updateRow Order.id oid cancelOrderRow db.orders,
            ¬ openSellOn hidv o := by
          intro o ho' hos
          rcases mem_updateRow_iff.mp ho' with ⟨x, hx, rfl⟩
          by_cases hk : Order.id x = oid
          · rw [if_pos hk] at hos
            exact absurd hos.1 (by simp [cancelOrderRow])
          · rw [if_neg hk] at hos
            have hxv : x ≠ v := fun he => hk (by rw [he, hvid])
            have h2 := two_le_countP (l := db.orders)
              (p := fun o => decide (openSellOn hidv o)) hx hvmem hxv
              (decide_eq_true hos)
              (decide_eq_true ⟨hvopen, hvsell, hhid⟩)
            have h1 := hinv.uniqueSell hidv
            omega
        exact inv_updateHolding_unreferenced hOrders unlistHolding_id hno

theorem finalizeOrder_holdings (db : DB) (oid : Nat) (rem qty : Int) :
    (finalizeOrder db oid rem qty).holdings = db.holdings := by
  unfold finalizeOrder
  split_ifs <;> rfl

theorem finalizeOrder_next_id (db : DB) (oid : Nat) (rem qty : Int) :
    (finalizeOrder db oid rem qty).next_id = db.next_id := by
  unfold finalizeOrder
  split_ifs <;> rfl

theorem finalizeOrder_orders_zero (db : DB) (oid : Nat) (qty : Int) :
    (finalizeOrder db oid 0 qty).orders = updateRow Order.id oid fillOrder db.orders := by
  unfold finalizeOrder
  rw [if_pos rfl]

/-- Field equations of one effective sell-loop iteration. -/
theorem sellMatchStep_fields (uid : Nat) (sym : String) (phid : Option Nat)
    (db : DB) (rem : Int) (m : Order) (hrem : rem ≠ 0) :
    (sellMatchStep uid sym phid (db, rem) m).1.orders =
      (if m.quantity > 1 then updateRow Order.id m.id decrementOrder db.orders
       else updateRow Order.id m.id fillOrder db.orders) ∧
    (sellMatchStep uid sym phid (db, rem) m).1.holdings =
      (match phid with
       | some hid => updateRow Holding.id hid (transferHolding m.user_id m.price) db.holdings
       | none => db.holdings) ∧
    (sellMatchStep uid sym phid (db, rem) m).1.next_id = db.next_id ∧
    (sellMatchStep uid sym phid (db, rem) m).2 = rem - 1 := by
  refine ⟨?_, ?_, ?_, ?_⟩ <;>
    simp only [sellMatchStep, if_neg hrem] <;>
    cases phid <;>
    by_cases hq : m.quantity > 1 <;>
    simp [hq] <;>
    rfl

/-- Once remaining quantity reaches 0, the sell loop no-ops. -/
theorem foldl_sellMatchStep_zero (uid : Nat) (sym : String) (phid : Option Nat) :
    ∀ (t : List Order) (db : DB),
    t.foldl (sellMatchStep uid sym phid) (db, 0) = (db, 0) := by
  intro t
  induction t with
  | nil => intro db; rfl
  | cons a t ih =>
    intro db
    rw [List.foldl_cons]
    have hstep : sellMatchStep uid sym phid (db, 0) a = (db, 0) := by
      simp [sellMatchStep]
    rw [hstep]
    exact ih db

/-- Listing a tradable holding and appending the bound open ask preserves
the invariant; moreover no pre-existing order is an open sell on that
holding. -/
theorem sellInsert_preserves_inv {db : DB} {uid : Nat} {sym : String}
    {price : Int} {hid : Nat} {h : Holding}
    (hinv : Inv db)
    (hfound : findRow Holding.id hid db.holdings = some h)
    (htrad : h.status = HoldingStatus.tradable) :
    Inv (sellInsert db uid sym price (some hid)) ∧
    (∀ o ∈ db.orders, ¬ openSellOn hid o) := by
  have hno : ∀ o ∈ db.orders, ¬ openSellOn hid o := by
    intro o ho hos
    obtain ⟨hid2, hhid2, h2, hfind2, hl2⟩ :=
      hinv.boundListed o ho hos.1 hos.2.1
    have he : hid2 = hid := by
      have := hhid2.symm.trans hos.2.2
      exact Option.some.inj this
    subst he
    have : h2 = h := Option.some.inj (hfind2.symm.trans hfound)
    subst this
    rw [htrad] at hl2
    cases hl2
  refine ⟨⟨?_, ?_, ?_, ?_, ?_⟩, hno⟩
  · show ((db.orders ++ [newSellOrder db uid sym price (some hid)]).map Order.id).Nodup
    rw [List.map_append, List.nodup_append]
    refine ⟨hinv.ordersNodup, List.nodup_singleton _, ?_⟩
    intro a ha hb
    simp only [List.map_cons, List.map_nil, List.mem_singleton] at hb
    rcases List.mem_map.mp ha with ⟨o, ho, rfl⟩
    have := hinv.idsFresh o ho
    simp only [newSellOrder] at hb
    omega
  · show ((updateRow Holding.id hid (listHolding price) db.holdings).map Holding.id).Nodup
    rw [map_key_updateRow (listHolding_id price)]
    exact hinv.holdingsNodup
  · intro o ho
    show o.id < db.next_id + 1
    rcases List.mem_append.mp ho with hor | hor
    · have := hinv.idsFresh o hor
      omega
    · rw [List.mem_singleton] at hor
      subst hor
      show db.next_id < db.next_id + 1
      omega
  · intro o ho hop hty
    rcases List.mem_append.mp ho with hor | hor
    · obtain ⟨hid2, hhid2, h2, hfind2, hl2⟩ := hinv.boundListed o hor hop hty
      have hne2 : hid2 ≠ hid := by
        intro he
        exact hno o hor ⟨hop, hty, he ▸ hhid2⟩
      exact ⟨hid2, hhid2, h2,
        (findRow_updateRow_ne (listHolding_id price) hne2).trans hfind2, hl2⟩
    · rw [List.mem_singleton] at hor
      subst hor
      refine ⟨hid, rfl, listHolding price h, ?_, rfl⟩
      exact (findRow_updateRow_self (listHolding_id price)).trans (by rw [hfound]; rfl)
  · intro hid2
    show ((db.orders ++ [newSellOrder db uid sym price (some hid)]).countP fun o =>
      decide (openSellOn hid2 o)) ≤ 1
    rw [List.countP_append]
    by_cases hc : hid2 = hid
    · subst hc
      have hz : (db.orders.countP fun o => decide (openSellOn hid2 o)) = 0 := by
        rw [List.countP_eq_zero]
        intro o ho
        simp only [decide_eq_true_eq]
        exact hno o ho
      have hone : (([newSellOrder db uid sym price (some hid2)]).countP fun o =>
          decide (openSellOn hid2 o)) ≤ 1 := by
        simp only [List.countP_cons, List.countP_nil]
        split_ifs <;> omega
      omega
    · have hz : (([newSellOrder db uid sym price (some hid)]).countP fun o =>
          decide (openSellOn hid2 o)) = 0 := by
        simp [List.countP_cons, openSellOn, newSellOrder, hc]
        intro hcon
        exact absurd hcon.symm hc
      have := hinv.uniqueSell hid2
      omega

/-- A successful sell call on an existing holding preserves the invariant.
(A sell whose `holding_id` references no `vault_holdings` row would abort
on the real schema's foreign key when the order row is inserted, so it
reaches no new state and is excluded by hypothesis.) -/
theorem place_order_sell_preserves_inv {db : DB} {uid : Nat} {sym : String}
    {price qty : Int} {hid : Nat} {h : Holding} {db' : DB} {oid : Nat}
    (hinv : Inv db)
    (hfound : findRow Holding.id hid db.holdings = some h)
    (hok : place_order db uid sym OrderType.sell price qty (some hid) =
      Except.ok (db', oid)) :
    Inv db' := by
  by_cases hq : qty = 1
  case neg =>
    have herr : place_order db uid sym OrderType.sell price qty (some hid) =
        Except.error ("Sell orders must have quantity=1 and a specific holding_id", db) := by
      simp [place_order, hq]
    rw [herr] at hok
    simp at hok
  case pos =>
  subst hq
  by_cases hv : h.user_id = uid ∧ h.status = HoldingStatus.tradable
  case neg =>
    have hd : h.user_id ≠ uid ∨ h.status ≠ HoldingStatus.tradable := by
      by_cases h1 : h.user_id = uid
      · exact Or.inr (fun hc => hv ⟨h1, hc⟩)
      · exact Or.inl h1
    have hnn : ¬ ¬ (h.user_id ≠ uid ∨ h.status ≠ HoldingStatus.tradable) :=
      not_not_intro hd
    have herr : place_order db uid sym OrderType.sell price 1 (some hid) =
        Except.error ("Holding is not yours or not tradable", db) := by
      simp [place_order, hfound, hnn]
    rw [herr] at hok
    simp at hok
  case pos =>
  obtain ⟨hown, htrad⟩ := hv
  have hred : place_order db uid sym OrderType.sell price 1 (some hid) =
      Except.ok (finalizeOrder
        (sellLoop (sellInsert db uid sym price (some hid)) uid sym price 1 (some hid)).1
        db.next_id
        (sellLoop (sellInsert db uid sym price (some hid)) uid sym price 1 (some hid)).2
        1, db.next_id) := by
    simp [place_order, hfound, hown, htrad, sellLoop]
  rw [hred] at hok
  simp only [Except.ok.injEq, Prod.mk.injEq] at hok
  obtain ⟨h1, _⟩ := hok
  subst h1
  obtain ⟨hinv2, hno⟩ := sellInsert_preserves_inv hinv hfound htrad
  cases hcands : eligibleBids (sellInsert db uid sym price (some hid)) sym uid price with
  | nil =>
    have hl : sellLoop (sellInsert db uid sym price (some hid)) uid sym price 1 (some hid) =
        (sellInsert db uid sym price (some hid), 1) := by
      simp [sellLoop, hcands]
    rw [hl]
    exact finalizeOrder_preserves_inv hinv2
  | cons a t =>
    have hamem' : a ∈ eligibleBids (sellInsert db uid sym price (some hid)) sym uid price := by
      rw [hcands]
      exact List.mem_cons_self a t
    obtain ⟨hamem, hasym, habuy, haopen, hane, hapr⟩ := mem_eligibleBids.mp hamem'
    have hfields := sellMatchStep_fields uid sym (some hid)
      (sellInsert db uid sym price (some hid)) 1 a (by omega)
    have hstep_eta : sellMatchStep uid sym (some hid)
        (sellInsert db uid sym price (some hid), 1) a =
        ((sellMatchStep uid sym (some hid)
          (sellInsert db uid sym price (some hid), 1) a).1, 0) := by
      have h2 := hfields.2.2.2
      have : (1 : Int) - 1 = 0 := by norm_num
      rw [this] at h2
      exact Prod.ext rfl h2
    have hloop : sellLoop (sellInsert db uid sym price (some hid)) uid sym price 1 (some hid) =
        ((sellMatchStep uid sym (some hid)
          (sellInsert db uid sym price (some hid), 1) a).1, 0) := by
      simp only [sellLoop, hcands, List.foldl_cons]
      rw [hstep_eta]
      exact foldl_sellMatchStep_zero uid sym (some hid) t _
    rw [hloop]
    have main : ∀ (g : Order → Order),
        (∀ o, Order.id (g o) = Order.id o) →
        (∀ o, (g o).status = OrderStatus.open_ → (g o).type = OrderType.sell →
          (g o).holding_id = o.holding_id ∧ o.status = OrderStatus.open_ ∧
            o.type = OrderType.sell) →
        Inv { sellInsert db uid sym price (some hid) with
          orders := updateRow Order.id db.next_id fillOrder
            (updateRow Order.id a.id g (sellInsert db uid sym price (some hid)).orders),
          holdings := updateRow Holding.id hid (transferHolding a.user_id a.price)
            (sellInsert db uid sym price (some hid)).holdings } := by
      intro g hgid hgb
      have hA : Inv { sellInsert db uid sym price (some hid) with
          orders := updateRow Order.id a.id g
            (sellInsert db uid sym price (some hid)).orders } :=
        inv_updateRow_orders hinv2 hgid hgb
      have hB : Inv { sellInsert db uid sym price (some hid) with
          orders := updateRow Order.id db.next_id fillOrder
            (updateRow Order.id a.id g (sellInsert db uid sym price (some hid)).orders) } :=
        inv_updateRow_orders hA fillOrder_id
          (fun o hop _ => by simp [fillOrder] at hop)
      have hno_f : ∀ o ∈ updateRow Order.id db.next_id fillOrder
          (updateRow Order.id a.id g (sellInsert db uid sym price (some hid)).orders),
          ¬ openSellOn hid o := by
        intro o ho hos
        rcases mem_updateRow_iff.mp ho with ⟨x1, hx1, rfl⟩
        by_cases hk2 : Order.id x1 = db.next_id
        · rw [if_pos hk2] at hos
          exact absurd hos.1 (by simp [fillOrder])
        · rw [if_neg hk2] at hos
          rcases mem_updateRow_iff.mp hx1 with ⟨x, hx, rfl⟩
          by_cases hk1 : Order.id x = a.id
          · rw [if_pos hk1] at hos hk2
            have hx_os : openSellOn hid x := by
              obtain ⟨hh0, hs0, ht0⟩ := hgb x hos.1 hos.2.1
              exact ⟨hs0, ht0, hh0 ▸ hos.2.2⟩
            rcases List.mem_append.mp hx with hxo | hxo
            · exact hno x hxo hx_os
            · rw [List.mem_singleton] at hxo
              subst hxo
              exact hk2 (by rw [hgid]; rfl)
          · rw [if_neg hk1] at hos hk2
            rcases List.mem_append.mp hx with hxo | hxo
            · exact hno x hxo hos
            · rw [List.mem_singleton] at hxo
              subst hxo
              exact hk2 rfl
      exact inv_updateHolding_unreferenced hB
        (transferHolding_id a.user_id a.price) hno_f
    by_cases haq : a.quantity > 1
    · have hfin := main decrementOrder decrementOrder_id
        (fun o hop hty => ⟨rfl, hop, hty⟩)
      refine inv_of_fields _ ?_ ?_ ?_ hfin
      · rw [finalizeOrder_orders_zero, hfields.1, if_pos haq]
      · rw [finalizeOrder_holdings, hfields.2.1]
      · rw [finalizeOrder_next_id, hfields.2.2.1]
    · have hfin := main fillOrder fillOrder_id
        (fun o hop _ => by simp [fillOrder] at hop)
      refine inv_of_fields _ ?_ ?_ ?_ hfin
      · rw [finalizeOrder_orders_zero, hfields.1, if_neg haq]
      · rw [finalizeOrder_holdings, hfields.2.1]
      · rw [finalizeOrder_next_id, hfields.2.2.1]

/-- States reachable through the engine: any state with an empty order
book (orders are created and owned entirely by this core), closed under
successful `place_order` and `cancel_order` calls.  A buy with a holding
reference and a sell with quantity ≠ 1 or no holding reference raise and
reach no state; a sell whose `holding_id` matches no `vault_holdings` row
would violate the schema's foreign key on insert, so the sell step
requires the referenced holding to exist. -/
inductive Reachable : DB → Prop where
  | base (db : DB) :
      db.orders = [] →
      (db.holdings.map Holding.id).Nodup →
      Reachable db
  | place_buy (db : DB) (uid : Nat) (sym : String) (price qty : Int)
      (db' : DB) (oid : Nat) :
      Reachable db →
      place_order db uid sym OrderType.buy price qty none = Except.ok (db', oid) →
      Reachable db'
  | place_sell (db : DB) (uid : Nat) (sym : String) (price qty : Int)
      (hid : Nat) (h : Holding) (db' : DB) (oid : Nat) :
      Reachable db →
      findRow Holding.id hid db.holdings = some h →
      place_order db uid sym OrderType.sell price qty (some hid) =
        Except.ok (db', oid) →
      Reachable db'
  | cancel (db : DB) (oid uid : Nat) (db' : DB) (b : Bool) :
      Reachable db →
      cancel_order db oid uid = Except.ok (db', b) →
      Reachable db'

/-- Every reachable state satisfies the inductive invariant. -/
theorem reachable_inv {db : DB} (hr : Reachable db) : Inv db := by
  induction hr with
  | base db hord hnd =>
    refine ⟨?_, hnd, ?_, ?_, ?_⟩
    · rw [hord]; exact List.nodup_nil
    · intro o ho; rw [hord] at ho; exact absurd ho (List.not_mem_nil o)
    · intro o ho; rw [hord] at ho; exact absurd ho (List.not_mem_nil o)
    · intro hid; rw [hord]; simp [List.countP_nil]
  | place_buy db uid sym price qty db' oid _ hok ih =>
    exact place_order_buy_preserves_inv ih hok
  | place_sell db uid sym price qty hid h db' oid _ hfound hok ih =>
    exact place_order_sell_preserves_inv ih hfound hok
  | cancel db oid uid db' b _ hok ih =>
    exact cancel_order_preserves_inv ih hok

/-- **C8.** In every state reachable through `place_order` and
`cancel_order`, a given holding is referenced by at most one open sell
order: placing a sell requires the holding to be `tradable` and
atomically sets it `listed`, and the bound order's cancellation or fill
reverts the holding to `tradable` or transfers it, so no two
simultaneously open sell orders ever reference the same holding. -/
theorem reachable_holding_at_most_one_open_sell :
    ∀ db : DB, Reachable db → AtMostOneOpenSell db :=
  fun _ hr => (reachable_inv hr).uniqueSell

/-- Base state for the C8 witness: user 9 holds tradable holding 300. -/
def dbW8 : DB :=
  { profiles := [{ id := 9, cash_balance := 0, locked_balance := 0 }],
    holdings := [{ id := 300, user_id := 9, symbol := "X",
                   status := HoldingStatus.tradable,
                   acquisition_price := 0, listing_price := none }],
    orders := [], trades := [], cards := [], prices := [],
    price_history := [], next_id := 50, now := 1 }

/-- The state after user 9 lists holding 300 at price 70. -/
def dbW8' : DB :=
  match place_order dbW8 9 "X" OrderType.sell 70 1 (some 300) with
  | Except.ok (d, _) => d
  | Except.error (_, d) => d

/-- Witness for C8: the state actually reached by a sell placement has at
most one open sell order per holding. -/
theorem reachable_holding_at_most_one_open_sell_witness :
    AtMostOneOpenSell dbW8' := by
  apply reachable_holding_at_most_one_open_sell
  exact Reachable.place_sell dbW8 9 "X" 70 1 300
    { id := 300, user_id := 9, symbol := "X",
      status := HoldingStatus.tradable,
      acquisition_price := 0, listing_price := none }
    dbW8' 50
    (Reachable.base dbW8 rfl (by decide)) (by decide) rfl

/-! ## C5 (amended): every write satisfies the effective quantity CHECK -/

/-- An orders-table UPDATE whose SET clause keeps quantities non-negative
preserves the effective constraint. -/
theorem effectiveCheck_updateRow {l : List Order} {k : Nat} {g : Order → Order}
    (hg : ∀ x, 0 ≤ x.quantity → 0 ≤ (g x).quantity)
    (h : ordersQuantityCheckEffective l) :
    ordersQuantityCheckEffective (updateRow Order.id k g l) := by
  intro o' ho'
  rcases mem_updateRow_iff.mp ho' with ⟨x, hx, rfl⟩
  by_cases hk : Order.id x = k
  · rw [if_pos hk]
    exact hg x (h x hx)
  · rw [if_neg hk]
    exact h x hx

theorem execBuyTrade_rem (uid : Nat) (sym : String) (price : Int)
    (db : DB) (rem : Int) (m : Order) :
    (execBuyTrade uid sym price db rem m).2 = rem - 1 := rfl

/-- One buy-loop iteration keeps all quantities non-negative (its only
orders writes are a cancel, which keeps the quantity, or a fill, which
writes 0) and keeps the remaining quantity non-negative (it decrements
only when the remainder is non-zero). -/
theorem buyMatchStep_effective (uid : Nat) (sym : String) (price : Int)
    (db : DB) (rem : Int) (m : Order)
    (hge : ordersQuantityCheckEffective db.orders) (hrem : 0 ≤ rem) :
    ordersQuantityCheckEffective (buyMatchStep uid sym price (db, rem) m).1.orders ∧
    0 ≤ (buyMatchStep uid sym price (db, rem) m).2 := by
  constructor
  · rcases buyMatchStep_cases uid sym price db rem m with hceq | ⟨ho, _, _⟩ | ⟨ho, _, _⟩
    · rw [hceq]
      exact hge
    · rw [ho]
      exact effectiveCheck_updateRow (fun x hx => hx) hge
    · rw [ho]
      exact effectiveCheck_updateRow (fun x _ => le_refl 0) hge
  · simp only [buyMatchStep]
    by_cases h0 : rem = 0
    · rw [if_pos h0]
      exact hrem
    · rw [if_neg h0]
      cases hb : m.holding_id.bind (fun hid => findRow Holding.id hid db.holdings) with
      | none =>
        show (0 : Int) ≤ rem - 1
        omega
      | some h =>
        dsimp only
        by_cases hg : h.status ≠ HoldingStatus.listed ∨ h.user_id ≠ m.user_id
        · rw [if_pos hg]
          exact hrem
        · rw [if_neg hg]
          show (0 : Int) ≤ rem - 1
          omega

/-- The whole buy matching loop keeps all quantities and the remainder
non-negative. -/
theorem foldl_buyMatchStep_effective (uid : Nat) (sym : String) (price : Int) :
    ∀ (cands : List Order) (s : DB × Int),
    ordersQuantityCheckEffective s.1.orders → 0 ≤ s.2 →
    ordersQuantityCheckEffective
      ((cands.foldl (buyMatchStep uid sym price) s).1.orders) ∧
    0 ≤ (cands.foldl (buyMatchStep uid sym price) s).2 := by
  intro cands
  induction cands with
  | nil => intro s h1 h2; exact ⟨h1, h2⟩
  | cons a t ih =>
    intro s h1 h2
    rw [List.foldl_cons]
    obtain ⟨h1', h2'⟩ := buyMatchStep_effective uid sym price s.1 s.2 a h1 h2
    exact ih (buyMatchStep uid sym price s a) h1' h2'

/-- Finalization writes quantity 0 (full fill) or the non-negative
remainder (partial fill), so it preserves the effective constraint. -/
theorem finalizeOrder_effective {db : DB} {oid : Nat} {rem qty : Int}
    (hge : ordersQuantityCheckEffective db.orders) (hrem : 0 ≤ rem) :
    ordersQuantityCheckEffective (finalizeOrder db oid rem qty).orders := by
  unfold finalizeOrder
  by_cases h0 : rem = 0
  · rw [if_pos h0]
    exact effectiveCheck_updateRow (fun x _ => le_refl 0) hge
  · rw [if_neg h0]
    by_cases hlt : rem < qty
    · rw [if_pos hlt]
      exact effectiveCheck_updateRow (fun x _ => hrem) hge
    · rw [if_neg hlt]
      exact hge

/-- The buy branch's INSERT writes the requested quantity. -/
theorem buyInsert_effective {db : DB} {uid : Nat} {sym : String}
    {price qty : Int}
    (hge : ordersQuantityCheckEffective db.orders) (hq : 0 ≤ qty) :
    ordersQuantityCheckEffective (buyInsert db uid sym price qty).orders := by
  intro o ho
  have ho' : o ∈ db.orders ++ [newBuyOrder db uid sym price qty] := ho
  rcases List.mem_append.mp ho' with hor | hor
  · exact hge o hor
  · rw [List.mem_singleton] at hor
    subst hor
    exact hq

/-- The sell branch's INSERT writes quantity 1. -/
theorem sellInsert_effective {db : DB} {uid : Nat} {sym : String}
    {price : Int} {phid : Option Nat}
    (hge : ordersQuantityCheckEffective db.orders) :
    ordersQuantityCheckEffective (sellInsert db uid sym price phid).orders := by
  cases phid with
  | none =>
    intro o ho
    have ho' : o ∈ db.orders ++ [newSellOrder db uid sym price none] := ho
    rcases List.mem_append.mp ho' with hor | hor
    · exact hge o hor
    · rw [List.mem_singleton] at hor
      subst hor
      exact zero_le_one
  | some hid =>
    intro o ho
    have ho' : o ∈ db.orders ++ [newSellOrder db uid sym price (some hid)] := ho
    rcases List.mem_append.mp ho' with hor | hor
    · exact hge o hor
    · rw [List.mem_singleton] at hor
      subst hor
      exact zero_le_one

/-- **C5 (amended).** The original `schema.sql` CHECK `(quantity > 0)` is
superseded: the "Fix Order Quantity Constraint" migration re-adds
`orders_quantity_check` as `CHECK (quantity >= 0)` precisely so that
orders can be marked `filled` with quantity 0.  Against that effective
constraint the claimed safety holds: a successful buy call leaves every
orders row with a non-negative quantity (given a table satisfying the
constraint and a non-negative requested quantity), a successful sell call
does too (given the table invariant, under which the resting-bid
decrement cannot underrun 0), and the fully-filling call of the
counterexample completes without error with all rows — including the two
quantity-0 `filled` rows — satisfying `quantity >= 0`. -/
theorem writes_satisfy_effective_quantity_check :
    (∀ (db : DB) (uid : Nat) (sym : String) (price qty : Int)
       (db' : DB) (oid : Nat),
      ordersQuantityCheckEffective db.orders →
      0 ≤ qty →
      place_order db uid sym OrderType.buy price qty none =
        Except.ok (db', oid) →
      ordersQuantityCheckEffective db'.orders) ∧
    (∀ (db : DB) (uid : Nat) (sym : String) (price qty : Int) (hid : Nat)
       (h : Holding) (db' : DB) (oid : Nat),
      ordersQuantityCheckEffective db.orders →
      Inv db →
      findRow Holding.id hid db.holdings = some h →
      place_order db uid sym OrderType.sell price qty (some hid) =
        Except.ok (db', oid) →
      ordersQuantityCheckEffective db'.orders) ∧
    (callOk (place_order dbC3 1 "X" OrderType.buy 120 1 none) = true ∧
     ordersQuantityCheckEffective
       (ordersAfter (place_order dbC3 1 "X" OrderType.buy 120 1 none))) := by
  refine ⟨?_, ?_, by decide, by decide⟩
  · intro db uid sym price qty db' oid hge hq hok
    have hred : place_order db uid sym OrderType.buy price qty none =
        (if (match findRow Profile.id uid db.profiles with
             | some prof => decide (¬prof.cash_balance < price * qty)
             | none => true) = true
         then Except.ok (finalizeOrder
            (buyLoop (buyInsert db uid sym price qty) uid sym price qty).1
            db.next_id
            (buyLoop (buyInsert db uid sym price qty) uid sym price qty).2 qty,
            db.next_id)
         else Except.error ("Insufficient funds", db)) := by
      simp [place_order, buyLoop]
    rw [hred] at hok
    by_cases hc : (match findRow Profile.id uid db.profiles with
        | some prof => decide (¬prof.cash_balance < price * qty)
        | none => true) = true
    · rw [if_pos hc] at hok
      simp only [Except.ok.injEq, Prod.mk.injEq] at hok
      obtain ⟨h1, _⟩ := hok
      subst h1
      obtain ⟨hl1, hl2⟩ := foldl_buyMatchStep_effective uid sym price
        (eligibleAsks (buyInsert db uid sym price qty) sym uid price)
        (buyInsert db uid sym price qty, qty)
        (buyInsert_effective hge hq) hq
      exact finalizeOrder_effective hl1 hl2
    · rw [if_neg hc] at hok
      simp at hok
  · intro db uid sym price qty hid h db' oid hge hinv hfound hok
    by_cases hq : qty = 1
    case neg =>
      have herr : place_order db uid sym OrderType.sell price qty (some hid) =
          Except.error
            ("Sell orders must have quantity=1 and a specific holding_id", db) := by
        simp [place_order, hq]
      rw [herr] at hok
      simp at hok
    case pos =>
    subst hq
    by_cases hv : h.user_id = uid ∧ h.status = HoldingStatus.tradable
    case neg =>
      have hd : h.user_id ≠ uid ∨ h.status ≠ HoldingStatus.tradable := by
        by_cases h1 : h.user_id = uid
        · exact Or.inr (fun hc => hv ⟨h1, hc⟩)
        · exact Or.inl h1
      have hnn : ¬ ¬ (h.user_id ≠ uid ∨ h.status ≠ HoldingStatus.tradable) :=
        not_not_intro hd
      have herr : place_order db uid sym OrderType.sell price 1 (some hid) =
          Except.error ("Holding is not yours or not tradable", db) := by
        simp [place_order, hfound, hnn]
      rw [herr] at hok
      simp at hok
    case pos =>
    obtain ⟨hown, htrad⟩ := hv
    have hred : place_order db uid sym OrderType.sell price 1 (some hid) =
        Except.ok (finalizeOrder
          (sellLoop (sellInsert db uid sym price (some hid)) uid sym price 1
            (some hid)).1
          db.next_id
          (sellLoop (sellInsert db uid sym price (some hid)) uid sym price 1
            (some hid)).2
          1, db.next_id) := by
      simp [place_order, hfound, hown, htrad, sellLoop]
    rw [hred] at hok
    simp only [Except.ok.injEq, Prod.mk.injEq] at hok
    obtain ⟨h1, _⟩ := hok
    subst h1
    obtain ⟨hinv2, _⟩ := sellInsert_preserves_inv hinv hfound htrad
    have hge2 : ordersQuantityCheckEffective
        (sellInsert db uid sym price (some hid)).orders :=
      sellInsert_effective hge
    cases hcands : eligibleBids (sellInsert db uid sym price (some hid)) sym uid price with
    | nil =>
      have hl : sellLoop (sellInsert db uid sym price (some hid)) uid sym price 1
          (some hid) = (sellInsert db uid sym price (some hid), 1) := by
        simp [sellLoop, hcands]
      rw [hl]
      exact finalizeOrder_effective hge2 (by norm_num)
    | cons a t =>
      have hamem' : a ∈ eligibleBids (sellInsert db uid sym price (some hid))
          sym uid price := by
        rw [hcands]
        exact List.mem_cons_self a t
      obtain ⟨hamem, _, _, _, _, _⟩ := mem_eligibleBids.mp hamem'
      have hfields := sellMatchStep_fields uid sym (some hid)
        (sellInsert db uid sym price (some hid)) 1 a (by omega)
      have hstep_eta : sellMatchStep uid sym (some hid)
          (sellInsert db uid sym price (some hid), 1) a =
          ((sellMatchStep uid sym (some hid)
            (sellInsert db uid sym price (some hid), 1) a).1, 0) := by
        have h2 := hfields.2.2.2
        have hz : (1 : Int) - 1 = 0 := by norm_num
        rw [hz] at h2
        exact Prod.ext rfl h2
      have hloop : sellLoop (sellInsert db uid sym price (some hid)) uid sym price 1
          (some hid) =
          ((sellMatchStep uid sym (some hid)
            (sellInsert db uid sym price (some hid), 1) a).1, 0) := by
        simp only [sellLoop, hcands, List.foldl_cons]
        rw [hstep_eta]
        exact foldl_sellMatchStep_zero uid sym (some hid) t _
      rw [hloop, finalizeOrder_orders_zero]
      refine effectiveCheck_updateRow (fun x _ => le_refl 0) ?_
      rw [hfields.1]
      by_cases haq : a.quantity > 1
      · rw [if_pos haq]
        intro o' ho'
        rcases mem_updateRow_iff.mp ho' with ⟨x, hx, rfl⟩
        by_cases hk : Order.id x = a.id
        · rw [if_pos hk]
          have hxa : x = a := List.inj_on_of_nodup_map hinv2.ordersNodup hx hamem hk
          rw [hxa]
          show (0 : Int) ≤ a.quantity - 1
          omega
        · rw [if_neg hk]
          exact hge2 x hx
      · rw [if_neg haq]
        exact effectiveCheck_updateRow (fun x _ => le_refl 0) hge2

/-- The state produced by the fully-filling C5 witness call. -/
def dbC5' : DB :=
  match place_order dbC3 1 "X" OrderType.buy 120 1 none with
  | Except.ok (d, _) => d
  | Except.error (_, d) => d

/-- Witness for the amended C5: the buy conjunct applied to the concrete
fully-filling call, whose result state satisfies the effective
constraint. -/
theorem writes_satisfy_effective_quantity_check_witness :
    ordersQuantityCheckEffective dbC5'.orders :=
  writes_satisfy_effective_quantity_check.1 dbC3 1 "X" 120 1 dbC5' 20
    (by decide) (by decide) rfl

end Ledger
